import Mathlib

/-!
Verification of the install engine of `setup.py` (Merdekasoft/setup).

The program is a ZIP-based application installer.  We give a shallow
embedding of its install engine: the filesystem is a association list from
paths (lists of components) to nodes, the installer thread is a function
from an input description and a fault environment to a final filesystem
and an ordered list of emitted events (progress / message / finished).

Modelling conventions, matching the Python source:
  * `os.path` string manipulation (`join`, `basename`, `dirname`,
    `str.lstrip`, `str.replace`) is embedded on `String` values and paths
    are obtained by splitting on `/`.
  * Fallible OS calls whose failure the source handles (`shutil.rmtree`
    of a mapping destination, `shutil.copy2`, cleanup removal attempts,
    writing the desktop file) take their success from an explicit fault
    environment; `shutil.copytree` to an existing destination fails
    deterministically, as in Python.
  * Progress arithmetic `int((i+1)/total*50)` is embedded as the exact
    natural-number floor `(i+1)*50/total`.
-/

namespace Setup

/-! ## Filesystem model -/

/-- A path, as a list of components (the result of splitting on `/`). -/
abbrev Path := List String

/-- A filesystem node: a directory, or a file carrying a permission mode,
a symlink flag and its content. -/
inductive Node where
  | dir : Node
  | file (mode : Nat) (symlink : Bool) (content : String) : Node
deriving DecidableEq

/-- A filesystem: an association list from paths to nodes.  Lookup takes
the first entry with the given path, so mutation operations prepend. -/
abbrev FS := List (Path × Node)

/-- Look up the node stored at a path. -/
def lookupFS (fs : FS) (p : Path) : Option Node :=
  match fs with
  | [] => none
  | e :: rest => if e.1 = p then some e.2 else lookupFS rest p

/-- `os.path.exists`. -/
def existsFS (fs : FS) (p : Path) : Bool :=
  (lookupFS fs p).isSome

/-- `os.path.isdir`. -/
def isDirFS (fs : FS) (p : Path) : Bool :=
  match lookupFS fs p with
  | some Node.dir => true
  | _ => false

/-- `os.path.isfile`. -/
def isFileFS (fs : FS) (p : Path) : Bool :=
  match lookupFS fs p with
  | some (Node.file _ _ _) => true
  | _ => false

/-- `os.path.islink`. -/
def isLinkFS (fs : FS) (p : Path) : Bool :=
  match lookupFS fs p with
  | some (Node.file _ s _) => s
  | _ => false

/-- `isUnder a p` holds when `a` is a proper initial segment of `p`,
i.e. `p` denotes something strictly inside the directory `a`. -/
def isUnder (a : Path) (p : Path) : Bool :=
  match a, p with
  | [], [] => false
  | [], _ :: _ => true
  | _ :: _, [] => false
  | x :: xs, y :: ys => x == y && isUnder xs ys

/-- `p` is the path `a` itself or lies strictly under it. -/
def inTree (a p : Path) : Bool := a == p || isUnder a p

/-- `shutil.rmtree`: remove a path and everything under it. -/
def rmtreeFS (fs : FS) (p : Path) : FS :=
  fs.filter (fun e => !(inTree p e.1))

/-- `os.remove`: remove the entry at exactly this path. -/
def removePathFS (fs : FS) (p : Path) : FS :=
  fs.filter (fun e => !(e.1 == p))

/-- Create a directory at `p` if nothing exists there yet. -/
def addDirIfMissing (fs : FS) (p : Path) : FS :=
  if existsFS fs p then fs else (p, Node.dir) :: fs

/-- All nonempty initial segments of a path, shortest first. -/
def initSegs (p : Path) : List Path :=
  (List.range p.length).map (fun k => p.take (k + 1))

/-- `os.makedirs(p, exist_ok=True)` minus its error cases: create every
missing initial segment of `p` as a directory. -/
def makedirsAll (fs : FS) (p : Path) : FS :=
  (initSegs p).foldl addDirIfMissing fs

/-- Some initial segment of `p` exists but is not a directory; `os.makedirs`
raises in that situation even with `exist_ok=True`. -/
def blockedSeg (fs : FS) (p : Path) : Bool :=
  (initSegs p).any (fun q => existsFS fs q && !(isDirFS fs q))

/-- `str.split(sep)` for a one-character separator, on character lists
(recursion the kernel can evaluate). -/
def splitChar (c : Char) : List Char → List (List Char)
  | [] => [[]]
  | x :: xs =>
      match splitChar c xs with
      | [] => [[]]
      | h :: t => if x == c then [] :: h :: t else (x :: h) :: t

/-- Split a string path into its components, dropping empty ones. -/
def parsePath (s : String) : Path :=
  ((splitChar '/' s.toList).map String.mk).filter (fun c => !(c == ""))

/-- `os.makedirs(s, exist_ok=True)` on a path given as a string: raises on
the empty string and when a segment is blocked by a non-directory. -/
def makedirsStrExc (fs : FS) (s : String) : Except Unit FS :=
  if s == "" then Except.error ()
  else if blockedSeg fs (parsePath s) then Except.error ()
  else Except.ok (makedirsAll fs (parsePath s))

/-- The entries of `fs` lying strictly under `src`, with `src` stripped
from their paths, in the order they appear in `fs`. -/
def subtreeEntriesFS (fs : FS) (src : Path) : List (Path × Node) :=
  fs.filterMap (fun e =>
    if isUnder src e.1 then some (e.1.drop src.length, e.2) else none)

/-- `shutil.copytree src dst`: fails (raises) when `dst` already exists or
its creation is blocked; otherwise creates `dst` and copies the whole
subtree of `src` below it. -/
def copytreeFS (fs : FS) (src dst : Path) : Except Unit FS :=
  if existsFS fs dst then Except.error ()
  else if blockedSeg fs dst then Except.error ()
  else
    Except.ok
      (((subtreeEntriesFS fs src).map (fun e => (dst ++ e.1, e.2))) ++ makedirsAll fs dst)

/-- `shutil.copy2 src dst` for an existing source file: when `dst` is an
existing directory the file is copied to `dst/basename(src)`, otherwise
`dst` is overwritten.  Metadata (the mode) travels with the node. -/
def copy2FS (fs : FS) (src dst : Path) : FS :=
  match lookupFS fs src with
  | some n =>
      if isDirFS fs dst then
        ((dst ++ [src.getLastD ""], n) : Path × Node) :: removePathFS fs (dst ++ [src.getLastD ""])
      else (dst, n) :: removePathFS fs dst
  | none => fs

/-- Replace the mode of a file node. -/
def setNodeMode (n : Node) (m : Nat) : Node :=
  match n with
  | Node.dir => Node.dir
  | Node.file _ s c => Node.file m s c

/-- `os.chmod`. -/
def chmodFS (fs : FS) (p : Path) (m : Nat) : FS :=
  fs.map (fun e => if e.1 = p then (e.1, setNodeMode e.2 m) else e)

/-- The mode of the file at `p`, if any. -/
def getFileMode (fs : FS) (p : Path) : Option Nat :=
  match lookupFS fs p with
  | some (Node.file m _ _) => some m
  | _ => none

/-- `open(p, "w")` followed by writing `content`: an existing file keeps its
mode, a fresh file is created with mode `0o644`. -/
def writeFileFS (fs : FS) (p : Path) (content : String) : FS :=
  match getFileMode fs p with
  | some m => ((p, Node.file m false content) : Path × Node) :: removePathFS fs p
  | none => ((p, Node.file 420 false content) : Path × Node) :: removePathFS fs p

/-! ## String helpers mirroring `os.path` and `str` methods -/

/-- Does the string start with a `/`? -/
def headIsSlash (s : String) : Bool := s.toList.head? == some '/'

/-- Does the string start with a `.`? (`str.startswith(".")`) -/
def headIsDot (s : String) : Bool := s.toList.head? == some '.'

/-- Does the string end with a `/`? -/
def lastIsSlash (s : String) : Bool := s.toList.getLast? == some '/'

/-- `os.path.join a b` on POSIX. -/
def joinPath (a b : String) : String :=
  if headIsSlash b then b
  else if a == "" || lastIsSlash a then a ++ b
  else a ++ "/" ++ b

/-- `os.path.basename`: the part after the last `/`. -/
def basenameStr (s : String) : String :=
  String.mk ((splitChar '/' s.toList).getLastD [])

/-- `x.endswith(suf)`. -/
def strEnds (x suf : String) : Bool :=
  x.toList.reverse.take suf.toList.length == suf.toList.reverse

/-- `c in x` for a single character (Python `"." in file`). -/
def strHasChar (x : String) (c : Char) : Bool :=
  x.toList.any (fun a => a == c)

/-- `str.lower()` on the character list. -/
def lowerStr (s : String) : String :=
  String.mk (s.toList.map Char.toLower)

/-- Helper for `str.replace`: left-to-right non-overlapping replacement,
with fuel for kernel-evaluable recursion. -/
def replaceAux (pat repl : List Char) : Nat → List Char → List Char
  | _, [] => []
  | 0, l => l
  | fuel + 1, x :: xs =>
      if (x :: xs).take pat.length == pat then
        repl ++ replaceAux pat repl fuel ((x :: xs).drop pat.length)
      else x :: replaceAux pat repl fuel xs

/-- `s.replace(pat, repl)` for a nonempty pattern. -/
def replaceAllStr (s pat repl : String) : String :=
  if pat.toList == [] then s
  else String.mk (replaceAux pat.toList repl.toList s.toList.length s.toList)

/-- Path components joined back with `/` (for log messages about walked
files, matching `os.path.join(root, file)`). -/
def joinComps : Path → String
  | [] => ""
  | [x] => x
  | x :: xs => x ++ "/" ++ joinComps xs

/-- `os.path.dirname`. -/
def dirnameStr (s : String) : String :=
  if !(s.toList.contains '/') then ""
  else
    let head := (s.toList.reverse.dropWhile (fun c => !(c == '/'))).reverse
    let stripped := (head.reverse.dropWhile (fun c => c == '/')).reverse
    String.mk (if stripped.isEmpty then head else stripped)

/-- `s.lstrip("./")`: drop every leading `.` or `/` character. -/
def lstripDotSlash (s : String) : String :=
  String.mk (s.toList.dropWhile (fun c => c == '.' || c == '/'))

/-- `strStarts x base`: `x` starts with the string `base`. -/
def strStarts (x base : String) : Bool :=
  x.toList.take base.toList.length == base.toList

/-- `app_name.lower().replace(" ", "")`, the normalised application name
used for the temp directories and the desktop file name. -/
def normName (appName : String) : String :=
  String.mk ((appName.toList.map Char.toLower).filter (fun c => !(c == ' ')))

/-- Name of the temporary extraction directory for an application. -/
def tempDirName (appName : String) : String :=
  "." ++ normName appName ++ "_installer_temp_extract"

/-- Name of the temporary icon display directory for an application. -/
def iconDirName (appName : String) : String :=
  "." ++ normName appName ++ "_installer_display_temp_icon"

/-! ## Events and inputs -/

/-- The three signal kinds of `InstallerThread`: `progress_signal`,
`message_signal` and `finished_signal`. -/
inductive Event where
  | progress (n : Nat)
  | message (s : String)
  | finished (ok : Bool)
deriving DecidableEq

/-- One entry of the manifest `install_map`; `dict.get` yields `none` for a
missing key. -/
structure MappingRule where
  source_root : Option String
  destination_root : Option String
deriving DecidableEq

/-- Python truthiness of an optional string (`None` and `""` are falsy). -/
def optTruthy (o : Option String) : Bool :=
  match o with
  | some s => !(s == "")
  | none => false

/-- A mapping rule with both fields present and nonempty. -/
def ruleComplete (m : MappingRule) : Bool :=
  optTruthy m.source_root && optTruthy m.destination_root

/-- Fault environment: outcomes of the fallible OS calls made by the run
body.  Indices are the positions of mapping rules / archive entries. -/
structure Env where
  destRemoveFails : Nat → Bool
  copyFails : Nat → Bool
  fallbackRemoveFails : Bool
  extractFails : Nat → Bool
  desktopWriteFails : Bool
  cacheOutcome : Nat

/-- The inputs of one `InstallerThread.run`: validity of the ZIP, its
entries (paths relative to the archive root), and the constructor
arguments taken from the manifest.  `executableName = ""` models a missing
`executable_name`. -/
structure RunInput where
  zipValid : Bool
  archive : List (Path × Node)
  appName : String
  executableName : String
  iconPath : String
  metaTerminal : Option String
  metaType : Option String
  metaCategories : Option String
  installMap : List MappingRule
  homeDir : String

/-! ## Permission normalizer (lines 229-252 of setup.py) -/

/-- The executable-recognition heuristic applied to a file name: ends in
`.sh`, or equals the basename of the resolved executable, or contains no
`.` anywhere (the "no extension" test is `not "." in file`). -/
def normCandidate (name execBase : String) : Bool :=
  strEnds name ".sh" || name == execBase || !(strHasChar name '.')

/-- The per-entry transformation of the `os.walk` chmod loop: a regular
non-symlink file under `dst` that is recognised and lacks the user-execute
bit gets `S_IXUSR|S_IXGRP|S_IXOTH` added. -/
def normTransform (dst : Path) (execBase : String) (e : Path × Node) : Path × Node :=
  match e with
  | (p, Node.file m sym c) =>
      if isUnder dst p && !sym && normCandidate (p.getLastD "") execBase && m &&& 64 == 0 then
        (p, Node.file (m ||| 64 ||| 8 ||| 1) sym c)
      else (p, Node.file m sym c)
  | (p, Node.dir) => (p, Node.dir)

/-- The message emitted for an entry changed by the chmod loop, if any. -/
def normEvent (dst : Path) (execBase : String) (e : Path × Node) : Option Event :=
  match e with
  | (p, Node.file m sym _) =>
      if isUnder dst p && !sym && normCandidate (p.getLastD "") execBase && m &&& 64 == 0 then
        some (Event.message ("Givin execute permission to: " ++ joinComps p))
      else none
  | (_, Node.dir) => none

/-- The directory branch of the permission normalizer: walk every file
under `dst`. -/
def normalizeTree (fs : FS) (dst : Path) (execBase : String) : FS × List Event :=
  (fs.map (normTransform dst execBase), fs.filterMap (normEvent dst execBase))

/-- The single-file branch of the permission normalizer (`dstS` is the
string form of the destination path, used for `os.path.basename`). -/
def normalizeSingle (fs : FS) (dstP : Path) (dstS : String) (execBase : String) :
    FS × List Event :=
  if isLinkFS fs dstP then (fs, [])
  else if normCandidate (basenameStr dstS) execBase then
    match getFileMode fs dstP with
    | some m =>
        if m &&& 64 == 0 then
          (chmodFS fs dstP (m ||| 64 ||| 8 ||| 1),
           [Event.message ("Givin execute permission to: " ++ dstS)])
        else (fs, [])
    | none => (fs, [])
  else (fs, [])

/-- Lines 228-252: after a successful copy, normalize permissions over the
destination (directory walk or single-file check). -/
def normalizeAfterCopy (fs : FS) (dstP : Path) (dstS : String) (execName : String) :
    FS × List Event :=
  if isDirFS fs dstP then normalizeTree fs dstP (basenameStr execName)
  else if isFileFS fs dstP then normalizeSingle fs dstP dstS (basenameStr execName)
  else (fs, [])

/-! ## Archive stager (lines 160-167) -/

/-- `zip_ref.extract(file_info, temp)`: create the missing parent
directories, then write the entry. -/
def extractEntry (fs : FS) (tempP : Path) (e : Path × Node) : FS :=
  let full := tempP ++ e.1
  ((full, e.2) : Path × Node) :: removePathFS (makedirsAll fs full.dropLast) full

/-- Round-to-nearest, ties-to-even, of the exact fraction `num/den` to an
integer: the significand-rounding primitive of IEEE-754 binary64
arithmetic. -/
def rhe (num den : Nat) : Nat :=
  if 2 * (num % den) < den then num / den
  else if den < 2 * (num % den) then num / den + 1
  else if num / den % 2 = 0 then num / den else num / den + 1

/-- Fuel-driven search for the smallest `s` with `t ≤ cur * 2 ^ s`. -/
def ilogShiftAux (t : Nat) : Nat → Nat → Nat
  | 0, _ => 0
  | fuel + 1, cur => if t ≤ cur then 0 else ilogShiftAux t fuel (2 * cur) + 1

/-- The smallest `s` with `t ≤ i * 2 ^ s` (for `1 ≤ i ≤ t`): the exact
quotient `i/t` then lies in the binade `[2 ^ (-s), 2 ^ (-s + 1))`. -/
def ilogShift (i t : Nat) : Nat := ilogShiftAux t t i

/-- Python computes `int((i + 1) / total_files * 50)` (line 166) in IEEE
binary64: the true division of the ints is correctly rounded
(round-to-nearest, ties-to-even) to 53 significand bits, the product with
the exact `50.0` is rounded the same way, and `int` truncates toward
zero.  This models that computation exactly for `1 ≤ i ≤ t`: the
significand of `i/t` is `m1 = rhe (i * 2 ^ (s + 52)) t ∈ [2^52, 2^53]` at
exponent `-(s + 52)` where `s` is the binade shift; the product
`M = 50 * m1` lies in `[2^57, 2^59)`, so rounding it back to 53 bits
drops 5 or 6 low bits; truncation is natural-number division by the
remaining power of two.  It differs from the exact floor `i * 50 / t`
exactly where the double rounding falls below an integer, e.g.
`pyProg 29 50 = 28` while `29 * 50 / 50 = 29`.  (The binary64 exponent
range is not modelled: entry counts near `2 ^ 1021`, where `i/t` would go
subnormal, are not realizable.) -/
def pyProg (i t : Nat) : Nat :=
  let s := ilogShift i t
  let m1 := rhe (i * 2 ^ (s + 52)) t
  if 50 * m1 < 2 ^ 58 then rhe (50 * m1) 32 / 2 ^ (s + 47)
  else rhe (50 * m1) 64 / 2 ^ (s + 46)

/-- The extraction loop: one entry at a time, emitting
`progress(int((i+1)/total*50))` (IEEE-double arithmetic, modelled by
`pyProg`) after each entry; an extraction error aborts the run (third
component `false`). -/
def extractPhase (env : Env) (tempP : Path) (total : Nat) :
    Nat → List (Path × Node) → FS → FS × List Event × Bool
  | _, [], fs => (fs, [], true)
  | i, e :: rest, fs =>
      if env.extractFails i then (fs, [], false)
      else
        match extractPhase env tempP total (i + 1) rest (extractEntry fs tempP e) with
        | (fs2, evs, ok) => (fs2, Event.progress (pyProg (i + 1) total) :: evs, ok)

/-! ## Install mapper (lines 190-259) -/

/-- Lines 207-217: clearing a pre-existing destination before the copy.
A removal failure (`destRemoveFails`) is caught and logged as a warning. -/
def removalStep (env : Env) (i : Nat) (dstS : String) (dstP : Path) (fs : FS) :
    FS × List Event :=
  if existsFS fs dstP then
    if env.destRemoveFails i then
      (fs, [Event.message ("Clearin out old stuff at: " ++ dstS),
            Event.message ("Warning: Couldnt wipe " ++ dstS)])
    else if isDirFS fs dstP then
      (rmtreeFS fs dstP, [Event.message ("Clearin out old stuff at: " ++ dstS)])
    else (removePathFS fs dstP, [Event.message ("Clearin out old stuff at: " ++ dstS)])
  else (fs, [])

/-- Lines 222-256: the copy itself plus the permission normalization, all
inside one `try` whose handler logs a copy failure and lets the run
continue. -/
def copyStep (env : Env) (i : Nat) (sr dstS execName : String) (srcP dstP : Path)
    (fs2 : FS) : FS × List Event :=
  if isDirFS fs2 srcP then
    match copytreeFS fs2 srcP dstP with
    | Except.error _ => (fs2, [Event.message ("Copy fail from " ++ sr ++ " to " ++ dstS)])
    | Except.ok fsc => normalizeAfterCopy fsc dstP dstS execName
  else if env.copyFails i then
    (fs2, [Event.message ("Copy fail from " ++ sr ++ " to " ++ dstS)])
  else
    match lookupFS fs2 srcP with
    | none => (fs2, [Event.message ("Copy fail from " ++ sr ++ " to " ++ dstS)])
    | some _ => normalizeAfterCopy (copy2FS fs2 srcP dstP) dstP dstS execName

/-- Processing of one mapping rule (one iteration of the `for` loop over
`install_map`), lines 191-259.  The source path is
`os.path.join(temp, source_root)`, the destination is `destination_root`
with `$HOME` substituted.  A missing staged source skips the whole body —
silently — up to the progress emission.  The third component is `false`
exactly when the iteration raises an exception that the loop does not
catch (`os.makedirs` on a path blocked by a non-directory), which aborts
the whole run. -/
def mapStep (env : Env) (home tempS execName : String) (i total : Nat)
    (m : MappingRule) (fs : FS) : FS × List Event × Bool :=
  if !(ruleComplete m) then
    (fs, [Event.message "Heads up: Map is incomplete. Skippin it."], true)
  else if existsFS fs (parsePath (joinPath tempS (m.source_root.getD ""))) then
    match removalStep env i (replaceAllStr (m.destination_root.getD "") "$HOME" home)
        (parsePath (replaceAllStr (m.destination_root.getD "") "$HOME" home)) fs with
    | (fs1, evs1) =>
        match makedirsStrExc fs1
            (if isFileFS fs1 (parsePath (joinPath tempS (m.source_root.getD "")))
             then dirnameStr (replaceAllStr (m.destination_root.getD "") "$HOME" home)
             else replaceAllStr (m.destination_root.getD "") "$HOME" home) with
        | Except.error _ => (fs1, evs1, false)
        | Except.ok fs2 =>
            match copyStep env i (m.source_root.getD "")
                (replaceAllStr (m.destination_root.getD "") "$HOME" home) execName
                (parsePath (joinPath tempS (m.source_root.getD "")))
                (parsePath (replaceAllStr (m.destination_root.getD "") "$HOME" home)) fs2 with
            | (fs3, evs3) =>
                (fs3, evs1 ++ evs3 ++ [Event.progress (50 + (i + 1) * 50 / total)], true)
  else
    (fs, [Event.progress (50 + (i + 1) * 50 / total)], true)

/-- The loop over the install map. -/
def mappingLoop (env : Env) (home tempS execName : String) :
    Nat → Nat → List MappingRule → FS → FS × List Event × Bool
  | _, _, [], fs => (fs, [], true)
  | i, total, m :: rest, fs =>
      match mapStep env home tempS execName i total m fs with
      | (fs1, evs1, ok1) =>
          if !ok1 then (fs1, evs1, false)
          else
            match mappingLoop env home tempS execName (i + 1) total rest fs1 with
            | (fs2, evs2, ok2) => (fs2, evs1 ++ evs2, ok2)

/-- Lines 174-187, the fallback when the install map is empty: dump the
whole staged tree to `~/.app/<app_name>` (removing it first if present)
and rewrite the executable / icon paths to point below it.  Returns the
possibly rewritten executable and icon names. -/
def fallbackPhase (env : Env) (home appName tempS execName iconPath : String) (fs : FS) :
    FS × List Event × Bool × String × String :=
  let defaultS := joinPath (joinPath home ".app") appName
  let defaultP := parsePath defaultS
  let evs : List Event :=
    [Event.message ("No install map found. Just dumpin everything to: " ++ defaultS)]
  let removed : Option FS :=
    if existsFS fs defaultP then
      if env.fallbackRemoveFails then none else some (rmtreeFS fs defaultP)
    else some fs
  match removed with
  | none => (fs, evs, false, execName, iconPath)
  | some fs1 =>
      match copytreeFS fs1 (parsePath tempS) defaultP with
      | Except.error _ => (fs1, evs, false, execName, iconPath)
      | Except.ok fs2 =>
          let exec2 :=
            if execName == "" || !(headIsDot execName) then
              joinPath (joinPath ".app" appName)
                (if !(execName == "") then execName else normName appName)
            else execName
          let icon2 :=
            if iconPath == "" || !(headIsDot iconPath) then
              joinPath (joinPath ".app" appName)
                (if !(iconPath == "") then iconPath else "app_icon.png")
            else iconPath
          (fs2, evs, true, exec2, icon2)

/-! ## Desktop registrar (lines 275-343) -/

/-- The rendered `.desktop` file body. -/
def renderDesktop (name comment execF icon term ty cats : String) : String :=
  "[Desktop Entry]\nName=" ++ name ++ "\nComment=" ++ comment ++ "\nExec=" ++ execF ++
    "\nIcon=" ++ icon ++ "\nTerminal=" ++ term ++ "\nType=" ++ ty ++
    "\nCategories=" ++ cats ++ "\n"

/-- The application-registration directory `~/.local/share/applications`. -/
def appsDirStr (home : String) : String :=
  joinPath (joinPath (joinPath home ".local") "share") "applications"

/-- `_create_desktop_entry`: resolve the home-relative executable and icon
paths, fall back to empty fields (with a warning) when they are not
regular files, write the descriptor and mark it executable.  Only the
initial `os.makedirs` can abort the run (third component `false`); a write
failure is caught and logged. -/
def createDesktopEntry (env : Env) (home appName execName iconPath : String)
    (mTerm mType mCats : Option String) (fs : FS) : FS × List Event × Bool :=
  match makedirsStrExc fs (appsDirStr home) with
  | Except.error _ => (fs, [], false)
  | Except.ok fs1 =>
      let deskS := joinPath (appsDirStr home) (normName appName ++ ".desktop")
      let deskP := parsePath deskS
      let resExecS := joinPath home (lstripDotSlash execName)
      let resIconS := joinPath home (lstripDotSlash iconPath)
      let execPair : String × List Event :=
        if isFileFS fs1 (parsePath resExecS) then (resExecS, [])
        else ("", [Event.message ("Heads up: Cant find " ++ execName ++ " at " ++ resExecS)])
      let iconPair : String × List Event :=
        if isFileFS fs1 (parsePath resIconS) then (resIconS, [])
        else ("", [Event.message ("Yo, the icon " ++ iconPath ++ " aint at " ++ resIconS)])
      let content := renderDesktop appName (appName ++ " Application") execPair.1 iconPair.1
        (lowerStr (mTerm.getD "False")) (mType.getD "Application") (mCats.getD "Utility;")
      if env.desktopWriteFails then
        (fs1, execPair.2 ++ iconPair.2 ++ [Event.message "Major fail makin the desktop entry"],
         true)
      else
        let fs2 := writeFileFS fs1 deskP content
        let fs3 := chmodFS fs2 deskP (((getFileMode fs2 deskP).getD 420) ||| 64)
        (fs3, execPair.2 ++ iconPair.2 ++
          [Event.message ("Whippin up desktop entry: " ++ deskS)], true)

/-- `_update_desktop_icon_cache`: best-effort external commands; every
outcome is only an informational message. -/
def iconCachePhase (env : Env) : List Event :=
  Event.message "Refreshin that desktop icon cache..." ::
    (match env.cacheOutcome with
     | 0 => [Event.message "Desktop icon cache? Smooothly updated."]
     | 1 => [Event.message "GTK icon cache updated (fallback)."]
     | 2 => [Event.message "Heads up: Cant find update-desktop-database or gtk-update-icon-cache."]
     | _ => [Event.message "Desktop database update went sideways."])

/-! ## Workspace cleaner (lines 345-371) -/

/-- The retry loop of `_cleanup_temp_files` for the staging directory:
up to `remaining` attempts (5 at the top call), numbered from `attempt`. -/
def cleanupRetry (cok : Nat → Bool) (tempS : String) (tempP : Path) :
    Nat → Nat → FS → FS × List Event
  | _, 0, fs => (fs, [])
  | attempt, r + 1, fs =>
      if cok attempt then
        (rmtreeFS fs tempP,
         [Event.message ("Temp directory cleaned up, easy peasy: " ++ tempS)])
      else if r == 0 then
        (fs, [Event.message ("Fatal error: Couldnt delete temp directory " ++ tempS)])
      else
        match cleanupRetry cok tempS tempP (attempt + 1) r fs with
        | (fs1, evs) =>
            (fs1, Event.message ("Heads up: Couldnt delete " ++ tempS ++ ". Retrying...") :: evs)

/-- `_cleanup_temp_files`: retried removal of the staging directory, then a
single best-effort removal of the icon display directory. -/
def cleanupPhase (cok : Nat → Bool) (iok : Bool) (home appName : String) (fs : FS) :
    FS × List Event :=
  let tempS := joinPath home (tempDirName appName)
  let tempP := parsePath tempS
  let iconS := joinPath home (iconDirName appName)
  let iconP := parsePath iconS
  let part1 : FS × List Event :=
    if existsFS fs tempP then cleanupRetry cok tempS tempP 0 5 fs else (fs, [])
  let part2 : FS × List Event :=
    if existsFS part1.1 iconP then
      if iok then
        (rmtreeFS part1.1 iconP,
         [Event.message ("Temp icon display directory wiped clean: " ++ iconS)])
      else (part1.1, [Event.message ("Problem cleanin temp icon display directory " ++ iconS)])
    else (part1.1, [])
  (part2.1, part1.2 ++ part2.2)

/-! ## The run controller (`InstallerThread.run`) -/

/-- The body of `run` inside the `try`: everything up to and including the
final `Boom!` message.  The third component is the success boolean passed
to `finished_signal`; on an exception path the events end with the
`Install totally blew up` message emitted by the `except` handler. -/
def runBody (env : Env) (inp : RunInput) (fs : FS) : FS × List Event × Bool :=
  let blewUp : List Event := [Event.message "Install totally blew up"]
  if !inp.zipValid then
    (fs, [Event.message "Error: ZIP file aint valid or just gone, yo."], false)
  else
    let tempS := joinPath inp.homeDir (tempDirName inp.appName)
    let tempP := parsePath tempS
    let ev0 := Event.message ("Gettin a temp spot ready: " ++ tempS)
    let fs0 := if existsFS fs tempP then rmtreeFS fs tempP else fs
    match makedirsStrExc fs0 tempS with
    | Except.error _ => (fs0, ev0 :: blewUp, false)
    | Except.ok fs1 =>
        match extractPhase env tempP inp.archive.length 0 inp.archive fs1 with
        | (fs2, evsE, okE) =>
            if !okE then (fs2, ev0 :: (evsE ++ blewUp), false)
            else if inp.installMap.length == 0 then
              match fallbackPhase env inp.homeDir inp.appName tempS
                  inp.executableName inp.iconPath fs2 with
              | (fs3, evsF, okF, exec2, icon2) =>
                  if !okF then (fs3, ev0 :: (evsE ++ evsF ++ blewUp), false)
                  else
                    match createDesktopEntry env inp.homeDir inp.appName exec2 icon2
                        inp.metaTerminal inp.metaType inp.metaCategories fs3 with
                    | (fs4, evsD, okD) =>
                        if !okD then (fs4, ev0 :: (evsE ++ evsF ++ evsD ++ blewUp), false)
                        else
                          (fs4, ev0 :: (evsE ++ evsF ++ evsD ++ iconCachePhase env ++
                            [Event.message "Boom! Installation Done!"]), true)
            else
              match mappingLoop env inp.homeDir tempS inp.executableName 0
                  inp.installMap.length inp.installMap fs2 with
              | (fs3, evsM, okM) =>
                  if !okM then (fs3, ev0 :: (evsE ++ evsM ++ blewUp), false)
                  else
                    match createDesktopEntry env inp.homeDir inp.appName inp.executableName
                        inp.iconPath inp.metaTerminal inp.metaType inp.metaCategories fs3 with
                    | (fs4, evsD, okD) =>
                        if !okD then (fs4, ev0 :: (evsE ++ evsM ++ evsD ++ blewUp), false)
                        else
                          (fs4, ev0 :: (evsE ++ evsM ++ evsD ++ iconCachePhase env ++
                            [Event.message "Boom! Installation Done!"]), true)

/-- `InstallerThread.run`: the body inside `try`/`except` emits its events
and the terminal `finished` signal, then the `finally` block runs
`_cleanup_temp_files`, whose messages follow the completion event. -/
def installerRun (env : Env) (cok : Nat → Bool) (iok : Bool) (inp : RunInput) (fs : FS) :
    FS × List Event :=
  match runBody env inp fs with
  | (fs1, evs, ok) =>
      match cleanupPhase cok iok inp.homeDir inp.appName fs1 with
      | (fs2, evsC) => (fs2, evs ++ Event.finished ok :: evsC)

/-! ## The manifest loader (`CleanModernInstaller._load_package_metadata`) -/

/-- What `_load_package_metadata` can observe about the archive:
existence, ZIP well-formedness, the entry list, and the parsed manifest
keys (`none` models a JSON decoding error). -/
structure ZipData where
  pathExists : Bool
  isZip : Bool
  namelist : List String
  manifestKeys : Option (List String)

/-- `_load_package_metadata` (lines 445-474): read-only archive inspection
returning whether loading succeeded.  The filesystem is threaded through
unchanged, mirroring that the Python function performs no mutation. -/
def loadPackageMetadata (z : ZipData) (fs : FS) : Bool × FS :=
  if !z.pathExists then (false, fs)
  else if !z.isZip then (false, fs)
  else if !(z.namelist.contains "metadata.json") then (false, fs)
  else
    match z.manifestKeys with
    | none => (false, fs)
    | some keys =>
        if !(keys.contains "app_name") || !(keys.contains "version") then (false, fs)
        else (true, fs)

/-! ## Basic lookup lemmas -/

theorem lookupFS_cons_self (e : Path × Node) (fs : FS) : lookupFS (e :: fs) e.1 = some e.2 := by
  simp [lookupFS]

theorem lookupFS_cons_ne (e : Path × Node) (fs : FS) (p : Path) (h : e.1 ≠ p) :
    lookupFS (e :: fs) p = lookupFS fs p := by
  simp [lookupFS, h]

theorem normTransform_fst (dst : Path) (eb : String) (e : Path × Node) :
    (normTransform dst eb e).1 = e.1 := by
  rcases e with ⟨p, n⟩
  cases n <;> simp only [normTransform] <;> split <;> rfl

theorem lookupFS_map_keepPath (f : Path × Node → Path × Node)
    (hf : ∀ e, (f e).1 = e.1) (fs : FS) (p : Path) :
    lookupFS (fs.map f) p = (lookupFS fs p).map (fun n => (f (p, n)).2) := by
  induction fs with
  | nil => rfl
  | cons e rest ih =>
      rcases e with ⟨q, n⟩
      simp only [List.map_cons, lookupFS, hf (q, n)]
      by_cases h : q = p
      · subst h
        simp
      · simp only [if_neg h]
        exact ih

theorem lookupFS_map_norm (fs : FS) (dst : Path) (eb : String) (p : Path) :
    lookupFS (fs.map (normTransform dst eb)) p =
      (lookupFS fs p).map (fun n => (normTransform dst eb (p, n)).2) :=
  lookupFS_map_keepPath (normTransform dst eb) (normTransform_fst dst eb) fs p

theorem lookupFS_chmod_self (fs : FS) (p : Path) (m : Nat) :
    lookupFS (chmodFS fs p m) p = (lookupFS fs p).map (fun n => setNodeMode n m) := by
  have h := lookupFS_map_keepPath
    (fun e => if e.1 = p then (e.1, setNodeMode e.2 m) else e)
    (fun e => by dsimp only; split <;> rfl) fs p
  simp only [chmodFS]
  rw [h]
  cases lookupFS fs p <;> simp

theorem lookupFS_chmod_ne (fs : FS) (p q : Path) (m : Nat) (h : q ≠ p) :
    lookupFS (chmodFS fs q m) p = lookupFS fs p := by
  have hgen := lookupFS_map_keepPath
    (fun e => if e.1 = q then (e.1, setNodeMode e.2 m) else e)
    (fun e => by dsimp only; split <;> rfl) fs p
  simp only [chmodFS]
  rw [hgen]
  have h2 : p ≠ q := fun hh => h hh.symm
  cases lookupFS fs p <;> simp [h2]

/-! ## Bit lemmas for the permission modes -/

theorem testBit64 (j : Nat) : Nat.testBit 64 j = decide (6 = j) := by
  have h : (64 : Nat) = 2 ^ 6 := by norm_num
  rw [h, Nat.testBit_two_pow]

theorem testBit8 (j : Nat) : Nat.testBit 8 j = decide (3 = j) := by
  have h : (8 : Nat) = 2 ^ 3 := by norm_num
  rw [h, Nat.testBit_two_pow]

theorem testBit1 (j : Nat) : Nat.testBit 1 j = decide (0 = j) := by
  have h : (1 : Nat) = 2 ^ 0 := by norm_num
  rw [h, Nat.testBit_two_pow]

theorem orExec_and64 (m : Nat) : (m ||| 64 ||| 8 ||| 1) &&& 64 = 64 := by
  apply Nat.eq_of_testBit_eq
  intro j
  simp only [Nat.testBit_and, Nat.testBit_or, testBit64, testBit8, testBit1]
  by_cases hj : j = 6 <;> simp [hj] <;> tauto

theorem orExec_and8 (m : Nat) : (m ||| 64 ||| 8 ||| 1) &&& 8 = 8 := by
  apply Nat.eq_of_testBit_eq
  intro j
  simp only [Nat.testBit_and, Nat.testBit_or, testBit64, testBit8, testBit1]
  by_cases hj : j = 3 <;> simp [hj] <;> tauto

theorem orExec_and1 (m : Nat) : (m ||| 64 ||| 8 ||| 1) &&& 1 = 1 := by
  apply Nat.eq_of_testBit_eq
  intro j
  simp only [Nat.testBit_and, Nat.testBit_or, testBit64, testBit8, testBit1]
  by_cases hj : j = 0 <;> simp [hj] <;> tauto

/-! ## Claim C3 — the manifest loader -/

/-- C3: `_load_package_metadata` succeeds exactly when the archive path
exists, is a well-formed ZIP, contains a `metadata.json` entry, that entry
parses as JSON, and the parsed object has both `app_name` and `version`;
and it never mutates the filesystem. -/
theorem c3_manifest_loader_success_iff (z : ZipData) (fs : FS) :
    (loadPackageMetadata z fs).2 = fs ∧
    ((loadPackageMetadata z fs).1 = true ↔
      (z.pathExists = true ∧ z.isZip = true ∧
       z.namelist.contains "metadata.json" = true ∧
       ∃ keys, z.manifestKeys = some keys ∧ keys.contains "app_name" = true ∧
         keys.contains "version" = true)) := by
  rcases z with ⟨pe, iz, nl, mk⟩
  unfold loadPackageMetadata
  cases pe <;> cases iz <;> cases mk <;>
    simp_all <;>
    by_cases h1 : nl.contains "metadata.json" = true <;>
    simp_all <;>
    try tauto
  · rename_i keys
    by_cases h2 : keys.contains "app_name" = true <;>
      by_cases h3 : keys.contains "version" = true <;> simp_all

/-! ## Claim C10 — a dot anywhere counts as an extension -/

/-- C10: the executable-recognition predicate treats any filename
containing a `.` anywhere (hidden dotfiles such as `.profile`, suffixed
names such as `run.v2`) as having an extension: for such names the
no-extension clause never fires, so recognition reduces to the `.sh`
suffix test or equality with the resolved executable basename. -/
theorem c10_dot_means_extension (name execBase : String) (h : strHasChar name '.' = true) :
    normCandidate name execBase = (strEnds name ".sh" || name == execBase) := by
  unfold normCandidate
  rw [h]
  simp

theorem c10_dot_means_extension_witness :
    (strHasChar ".profile" '.' = true ∧
      normCandidate ".profile" "run" =
        (strEnds ".profile" ".sh" || ".profile" == "run")) ∧
    (strHasChar "run.v2" '.' = true ∧
      normCandidate "run.v2" "run" =
        (strEnds "run.v2" ".sh" || "run.v2" == "run")) :=
  ⟨⟨by decide, c10_dot_means_extension ".profile" "run" (by decide)⟩,
   ⟨by decide, c10_dot_means_extension "run.v2" "run" (by decide)⟩⟩

/-! ## Claim C7 — the permission normalizer -/

/-- C7: over the directory walk of the permission normalizer, a regular
non-symlink file under the destination that is recognised by the
heuristic and lacks the user-execute bit ends up with the user, group and
other execute bits set; a file that already has user-execute keeps its
mode; symlinks are never modified.  The same holds for the single-file
branch. -/
theorem c7_permission_normalizer (fs : FS) (dst : Path) (execBase : String)
    (p : Path) (m : Nat) (sym : Bool) (c : String)
    (hp : lookupFS fs p = some (Node.file m sym c)) (hu : isUnder dst p = true) :
    (sym = false → normCandidate (p.getLastD "") execBase = true → m &&& 64 = 0 →
      lookupFS (normalizeTree fs dst execBase).1 p =
        some (Node.file (m ||| 64 ||| 8 ||| 1) false c) ∧
      (m ||| 64 ||| 8 ||| 1) &&& 64 = 64 ∧ (m ||| 64 ||| 8 ||| 1) &&& 8 = 8 ∧
      (m ||| 64 ||| 8 ||| 1) &&& 1 = 1) ∧
    (m &&& 64 ≠ 0 → lookupFS (normalizeTree fs dst execBase).1 p =
      some (Node.file m sym c)) ∧
    (sym = true → lookupFS (normalizeTree fs dst execBase).1 p =
      some (Node.file m sym c)) ∧
    (∀ fsb q dstS mb cb, lookupFS fsb q = some (Node.file mb false cb) →
      normCandidate (basenameStr dstS) execBase = true → mb &&& 64 = 0 →
      lookupFS (normalizeSingle fsb q dstS execBase).1 q =
        some (Node.file (mb ||| 64 ||| 8 ||| 1) false cb)) ∧
    (∀ fsb q dstS, isLinkFS fsb q = true →
      (normalizeSingle fsb q dstS execBase).1 = fsb) := by
  have hmap : lookupFS (normalizeTree fs dst execBase).1 p =
      (lookupFS fs p).map (fun n => (normTransform dst execBase (p, n)).2) :=
    lookupFS_map_norm fs dst execBase p
  refine ⟨?_, ?_, ?_, ?_, ?_⟩
  · intro hs hcand hm
    subst hs
    refine ⟨?_, orExec_and64 m, orExec_and8 m, orExec_and1 m⟩
    rw [hmap, hp]
    simp only [List.getLastD_eq_getLast?] at hcand
    simp [normTransform, hu, hcand, hm]
  · intro hm
    rw [hmap, hp]
    simp [normTransform, hm]
  · intro hs
    subst hs
    rw [hmap, hp]
    simp [normTransform]
  · intro fsb q dstS mb cb hq hcand hm
    have hlink : isLinkFS fsb q = false := by
      simp [isLinkFS, hq]
    have hmode : getFileMode fsb q = some mb := by
      simp [getFileMode, hq]
    unfold normalizeSingle
    rw [hlink, hcand, hmode]
    simp only [if_true, Bool.false_eq_true, if_false]
    have hm2 : (mb &&& 64 == 0) = true := by simp [hm]
    rw [hm2]
    simp only [if_true]
    rw [lookupFS_chmod_self, hq]
    rfl
  · intro fsb q dstS hl
    unfold normalizeSingle
    rw [hl]
    simp

theorem c7_permission_normalizer_witness :
    lookupFS (normalizeTree [(["d"], Node.dir), (["d", "run"], Node.file 420 false "x")]
        ["d"] "e").1 ["d", "run"] = some (Node.file (420 ||| 64 ||| 8 ||| 1) false "x") ∧
    (420 ||| 64 ||| 8 ||| 1) &&& 64 = 64 ∧ (420 ||| 64 ||| 8 ||| 1) &&& 8 = 8 ∧
    (420 ||| 64 ||| 8 ||| 1) &&& 1 = 1 :=
  (c7_permission_normalizer
      [(["d"], Node.dir), (["d", "run"], Node.file 420 false "x")]
      ["d"] "e" ["d", "run"] 420 false "x" (by decide) (by decide)).1
    rfl (by decide) (by decide)

/-! ## Claim C1 — directory mapping rules never copy their content -/

/-- A fault environment in which every OS call succeeds. -/
def allOkEnv : Env :=
  { destRemoveFails := fun _ => false, copyFails := fun _ => false,
    fallbackRemoveFails := false, extractFails := fun _ => false,
    desktopWriteFails := false, cacheOutcome := 0 }

/-- The Scenario-B filesystem: a home directory with pre-existing content
at the mapping destination `$HOME/.local/foo`. -/
def c1FS : FS :=
  [(["h"], Node.dir), (["h", ".local"], Node.dir), (["h", ".local", "foo"], Node.dir),
   (["h", ".local", "foo", "old"], Node.file 420 false "old")]

/-- The Scenario-B input: one mapping rule
`{source_root: "pkg", destination_root: "$HOME/.local/foo"}` with `pkg/`
present in the archive as a directory containing the file `pkg/f`. -/
def c1Inp : RunInput :=
  { zipValid := true,
    archive := [(["pkg"], Node.dir), (["pkg", "f"], Node.file 420 false "x")],
    appName := "A", executableName := "e", iconPath := "i",
    metaTerminal := none, metaType := none, metaCategories := none,
    installMap := [⟨some "pkg", some "$HOME/.local/foo"⟩],
    homeDir := "/h" }

/-- C1: evaluating the run on Scenario B shows the claim fails on the
code.  Line 220 of `setup.py` pre-creates the destination directory
(`os.makedirs(full_destination_path, exist_ok=True)` in the
directory-source case), after which `shutil.copytree` — which requires a
non-existing destination — raises `FileExistsError`; the exception is
caught and logged as a copy failure.  Post-run the resolved destination
exists but is an empty directory: the pre-existing content is gone and
nothing was copied, yet the run reports success. -/
theorem c1_directory_rule_leaves_destination_empty :
    isDirFS (installerRun allOkEnv (fun _ => true) true c1Inp c1FS).1
      ["h", ".local", "foo"] = true ∧
    subtreeEntriesFS (installerRun allOkEnv (fun _ => true) true c1Inp c1FS).1
      ["h", ".local", "foo"] = [] ∧
    lookupFS (installerRun allOkEnv (fun _ => true) true c1Inp c1FS).1
      ["h", ".local", "foo", "f"] = none ∧
    lookupFS (installerRun allOkEnv (fun _ => true) true c1Inp c1FS).1
      ["h", ".local", "foo", "old"] = none ∧
    Event.message "Copy fail from pkg to /h/.local/foo" ∈
      (installerRun allOkEnv (fun _ => true) true c1Inp c1FS).2 ∧
    Event.finished true ∈ (installerRun allOkEnv (fun _ => true) true c1Inp c1FS).2 := by
  decide

/-! ## Event-trace predicates and per-phase trace lemmas -/

/-- Is this event the terminal completion event? -/
def eventIsFinished (e : Event) : Bool :=
  match e with
  | Event.finished _ => true
  | _ => false

/-- Does the list contain a completion event? -/
def hasFin (l : List Event) : Bool := l.any eventIsFinished

/-- Does the list consist of informational messages only? -/
def allMsg (l : List Event) : Bool :=
  l.all (fun e =>
    match e with
    | Event.message _ => true
    | _ => false)

/-- The progress values carried by the progress events of a trace, in
emission order. -/
def progressVals (l : List Event) : List Nat :=
  l.filterMap (fun e =>
    match e with
    | Event.progress n => some n
    | _ => none)

theorem allMsg_hasFin (l : List Event) (h : allMsg l = true) : hasFin l = false := by
  induction l with
  | nil => rfl
  | cons e rest ih =>
      simp only [allMsg, List.all_cons, Bool.and_eq_true] at h
      simp only [hasFin, List.any_cons, Bool.or_eq_false_iff]
      cases e <;> simp_all [eventIsFinished, hasFin, allMsg]

theorem allMsg_mem (l : List Event) (e : Event) (h : allMsg l = true) (he : e ∈ l) :
    ∃ s, e = Event.message s := by
  simp only [allMsg, List.all_eq_true] at h
  have h2 := h e he
  cases e with
  | progress n => simp at h2
  | finished b => simp at h2
  | message s => exact ⟨s, rfl⟩

theorem hasFin_append (a b : List Event) :
    hasFin (a ++ b) = (hasFin a || hasFin b) := by
  simp [hasFin, List.any_append]

theorem extractPhase_hasFin (env : Env) (tempP : Path) (total : Nat) :
    ∀ i l fs, hasFin (extractPhase env tempP total i l fs).2.1 = false := by
  intro i l
  induction l generalizing i with
  | nil => intro fs; rfl
  | cons e rest ih =>
      intro fs
      simp only [extractPhase]
      split
      · rfl
      · rcases h : extractPhase env tempP total (i + 1) rest (extractEntry fs tempP e) with
          ⟨fs2, evs, ok⟩
        have h2 := ih (i + 1) (extractEntry fs tempP e)
        rw [h] at h2
        simpa [hasFin, eventIsFinished] using h2

theorem normEvent_not_finished (dst : Path) (eb : String) (e : Path × Node) (ev : Event)
    (h : normEvent dst eb e = some ev) : eventIsFinished ev = false := by
  rcases e with ⟨p, n⟩
  cases n with
  | dir => simp [normEvent] at h
  | file m sym c =>
      simp only [normEvent] at h
      split at h
      · cases h; rfl
      · simp at h

theorem normalizeTree_hasFin (fs : FS) (dst : Path) (eb : String) :
    hasFin (normalizeTree fs dst eb).2 = false := by
  simp only [normalizeTree]
  induction fs with
  | nil => rfl
  | cons e rest ih =>
      simp only [List.filterMap_cons]
      cases he : normEvent dst eb e with
      | none => exact ih
      | some ev =>
          have h2 := normEvent_not_finished dst eb e ev he
          simp only [hasFin, List.any_cons, h2, Bool.false_or]
          simp only [hasFin] at ih
          exact ih

theorem normalizeSingle_hasFin (fs : FS) (dstP : Path) (dstS : String) (eb : String) :
    hasFin (normalizeSingle fs dstP dstS eb).2 = false := by
  unfold normalizeSingle
  split
  · rfl
  · split
    · split
      · split <;> rfl
      · rfl
    · rfl

theorem normalizeAfterCopy_hasFin (fs : FS) (dstP : Path) (dstS : String) (execName : String) :
    hasFin (normalizeAfterCopy fs dstP dstS execName).2 = false := by
  unfold normalizeAfterCopy
  split
  · exact normalizeTree_hasFin fs dstP (basenameStr execName)
  · split
    · exact normalizeSingle_hasFin fs dstP dstS (basenameStr execName)
    · rfl

theorem removalStep_allMsg (env : Env) (i : Nat) (dstS : String) (dstP : Path) (fs : FS) :
    allMsg (removalStep env i dstS dstP fs).2 = true := by
  unfold removalStep
  split
  · split
    · rfl
    · split <;> rfl
  · rfl

theorem copyStep_hasFin (env : Env) (i : Nat) (sr dstS execName : String) (srcP dstP : Path)
    (fs2 : FS) : hasFin (copyStep env i sr dstS execName srcP dstP fs2).2 = false := by
  unfold copyStep
  split
  · split
    · rfl
    · exact normalizeAfterCopy_hasFin _ _ _ _
  · split
    · rfl
    · split
      · rfl
      · exact normalizeAfterCopy_hasFin _ _ _ _

theorem mapStep_hasFin (env : Env) (home tempS execName : String) (i total : Nat)
    (m : MappingRule) (fs : FS) :
    hasFin (mapStep env home tempS execName i total m fs).2.1 = false := by
  unfold mapStep
  split
  · rfl
  · split
    · rcases hrm : removalStep env i
          (replaceAllStr (m.destination_root.getD "") "$HOME" home)
          (parsePath (replaceAllStr (m.destination_root.getD "") "$HOME" home)) fs with
        ⟨fs1, evs1⟩
      have h1 : hasFin evs1 = false := by
        have h0 := removalStep_allMsg env i
          (replaceAllStr (m.destination_root.getD "") "$HOME" home)
          (parsePath (replaceAllStr (m.destination_root.getD "") "$HOME" home)) fs
        rw [hrm] at h0
        exact allMsg_hasFin _ h0
      dsimp only
      split
      · exact h1
      · rename_i fs2 heq
        rcases hcp : copyStep env i (m.source_root.getD "")
            (replaceAllStr (m.destination_root.getD "") "$HOME" home) execName
            (parsePath (joinPath tempS (m.source_root.getD "")))
            (parsePath (replaceAllStr (m.destination_root.getD "") "$HOME" home)) fs2 with
          ⟨fs3, evs3⟩
        have h3 : hasFin evs3 = false := by
          have h0 := copyStep_hasFin env i (m.source_root.getD "")
            (replaceAllStr (m.destination_root.getD "") "$HOME" home) execName
            (parsePath (joinPath tempS (m.source_root.getD "")))
            (parsePath (replaceAllStr (m.destination_root.getD "") "$HOME" home)) fs2
          rw [hcp] at h0
          exact h0
        dsimp only
        simp only [hasFin, List.any_append, List.any_cons, List.any_nil,
          eventIsFinished, Bool.or_false] at h1 h3 ⊢
        simp [h1, h3]
    · simp [hasFin, eventIsFinished]

theorem allMsg_append (a b : List Event) : allMsg (a ++ b) = (allMsg a && allMsg b) := by
  simp [allMsg, List.all_append]

theorem mappingLoop_hasFin (env : Env) (home tempS execName : String) :
    ∀ i total l fs, hasFin (mappingLoop env home tempS execName i total l fs).2.1 = false := by
  intro i total l
  induction l generalizing i with
  | nil => intro fs; rfl
  | cons m rest ih =>
      intro fs
      simp only [mappingLoop]
      rcases hst : mapStep env home tempS execName i total m fs with ⟨fs1, evs1, ok1⟩
      have h1 := mapStep_hasFin env home tempS execName i total m fs
      rw [hst] at h1
      dsimp only
      split
      · exact h1
      · rcases hlp : mappingLoop env home tempS execName (i + 1) total rest fs1 with
          ⟨fs2, evs2, ok2⟩
        have h2 := ih (i + 1) fs1
        rw [hlp] at h2
        dsimp only
        simp only [hasFin, List.any_append] at h1 h2 ⊢
        simp [h1, h2]

theorem fallbackPhase_allMsg (env : Env) (home appName tempS execName iconPath : String)
    (fs : FS) :
    allMsg (fallbackPhase env home appName tempS execName iconPath fs).2.1 = true := by
  unfold fallbackPhase
  dsimp only
  split <;> first | rfl | (split <;> rfl)

theorem createDesktopEntry_allMsg (env : Env) (home appName execName iconPath : String)
    (mTerm mType mCats : Option String) (fs : FS) :
    allMsg (createDesktopEntry env home appName execName iconPath mTerm mType mCats fs).2.1
      = true := by
  unfold createDesktopEntry
  dsimp only
  split
  · rfl
  · split <;> split <;> split <;> rfl

theorem iconCachePhase_allMsg (env : Env) : allMsg (iconCachePhase env) = true := by
  unfold iconCachePhase
  split <;> rfl

theorem cleanupRetry_allMsg (cok : Nat → Bool) (tempS : String) (tempP : Path) :
    ∀ a r fs, allMsg (cleanupRetry cok tempS tempP a r fs).2 = true := by
  intro a r
  induction r generalizing a with
  | zero => intro fs; rfl
  | succ r ih =>
      intro fs
      simp only [cleanupRetry]
      split
      · rfl
      · split
        · rfl
        · rcases h : cleanupRetry cok tempS tempP (a + 1) r fs with ⟨fs1, evs⟩
          have h2 := ih (a + 1) fs
          rw [h] at h2
          dsimp only
          simpa [allMsg] using h2

theorem cleanupPhase_allMsg (cok : Nat → Bool) (iok : Bool) (home appName : String) (fs : FS) :
    allMsg (cleanupPhase cok iok home appName fs).2 = true := by
  unfold cleanupPhase
  dsimp only
  rw [allMsg_append]
  have h1 : ∀ fsx, allMsg (if existsFS fsx (parsePath (joinPath home (tempDirName appName)))
      then cleanupRetry cok (joinPath home (tempDirName appName))
        (parsePath (joinPath home (tempDirName appName))) 0 5 fsx
      else (fsx, [])).2 = true := by
    intro fsx
    split
    · exact cleanupRetry_allMsg cok _ _ 0 5 fsx
    · rfl
  rw [h1 fs]
  simp only [Bool.true_and]
  repeat' split
  all_goals rfl

theorem runBody_hasFin (env : Env) (inp : RunInput) (fs : FS) :
    hasFin (runBody env inp fs).2.1 = false := by
  unfold runBody
  dsimp only
  split
  · rfl
  · split
    · rfl
    · rename_i fs1 hmk
      rcases hex : extractPhase env (parsePath (joinPath inp.homeDir (tempDirName inp.appName)))
          inp.archive.length 0 inp.archive fs1 with ⟨fs2, evsE, okE⟩
      have hE := extractPhase_hasFin env
        (parsePath (joinPath inp.homeDir (tempDirName inp.appName))) inp.archive.length
        0 inp.archive fs1
      rw [hex] at hE
      dsimp only
      split
      · simp [hasFin, List.any_append, eventIsFinished] at hE ⊢
        exact hE
      · split
        · rcases hfb : fallbackPhase env inp.homeDir inp.appName
              (joinPath inp.homeDir (tempDirName inp.appName))
              inp.executableName inp.iconPath fs2 with ⟨fs3, evsF, okF, exec2, icon2⟩
          have hF : hasFin evsF = false := by
            have h0 := fallbackPhase_allMsg env inp.homeDir inp.appName
              (joinPath inp.homeDir (tempDirName inp.appName))
              inp.executableName inp.iconPath fs2
            rw [hfb] at h0
            exact allMsg_hasFin _ h0
          dsimp only
          split
          · simp [hasFin, List.any_append, eventIsFinished] at hE hF ⊢
            exact ⟨hE, hF⟩
          · rcases hde : createDesktopEntry env inp.homeDir inp.appName exec2 icon2
                inp.metaTerminal inp.metaType inp.metaCategories fs3 with ⟨fs4, evsD, okD⟩
            have hD : hasFin evsD = false := by
              have h0 := createDesktopEntry_allMsg env inp.homeDir inp.appName exec2 icon2
                inp.metaTerminal inp.metaType inp.metaCategories fs3
              rw [hde] at h0
              exact allMsg_hasFin _ h0
            have hC : hasFin (iconCachePhase env) = false :=
              allMsg_hasFin _ (iconCachePhase_allMsg env)
            dsimp only
            split <;>
              simp [hasFin, List.any_append, eventIsFinished] at hE hF hD hC ⊢ <;>
              tauto
        · rcases hml : mappingLoop env inp.homeDir
              (joinPath inp.homeDir (tempDirName inp.appName)) inp.executableName 0
              inp.installMap.length inp.installMap fs2 with ⟨fs3, evsM, okM⟩
          have hM : hasFin evsM = false := by
            have h0 := mappingLoop_hasFin env inp.homeDir
              (joinPath inp.homeDir (tempDirName inp.appName)) inp.executableName 0
              inp.installMap.length inp.installMap fs2
            rw [hml] at h0
            exact h0
          dsimp only
          split
          · simp [hasFin, List.any_append, eventIsFinished] at hE hM ⊢
            exact ⟨hE, hM⟩
          · rcases hde : createDesktopEntry env inp.homeDir inp.appName inp.executableName
                inp.iconPath inp.metaTerminal inp.metaType inp.metaCategories fs3 with
              ⟨fs4, evsD, okD⟩
            have hD : hasFin evsD = false := by
              have h0 := createDesktopEntry_allMsg env inp.homeDir inp.appName
                inp.executableName inp.iconPath inp.metaTerminal inp.metaType
                inp.metaCategories fs3
              rw [hde] at h0
              exact allMsg_hasFin _ h0
            have hC : hasFin (iconCachePhase env) = false :=
              allMsg_hasFin _ (iconCachePhase_allMsg env)
            dsimp only
            split <;>
              simp [hasFin, List.any_append, eventIsFinished] at hE hM hD hC ⊢ <;>
              tauto

/-! ## Claim C9 — event structure of a run -/

/-- The input of a minimal successful run used to exhibit the cleanup
messages that follow the completion event. -/
def c9Inp : RunInput :=
  { zipValid := true, archive := [], appName := "A", executableName := "",
    iconPath := "", metaTerminal := none, metaType := none, metaCategories := none,
    installMap := [], homeDir := "/h" }

/-- C9 counterexample: in a successful run the completion event is not the
last event — the Workspace Cleaner message emitted by the `finally` block
follows it.  This refutes the claim that the completion event is always
the last event of the run. -/
theorem c9_completion_not_last_counterexample :
    Event.finished true ∈ (installerRun allOkEnv (fun _ => true) true c9Inp []).2 ∧
    (installerRun allOkEnv (fun _ => true) true c9Inp []).2.getLast? =
      some (Event.message
        "Temp directory cleaned up, easy peasy: /h/.a_installer_temp_extract") := by
  decide

/-- C9 (amended): the event sequence of every run consists only of
progress, message and completion events; it contains exactly one
completion event, carrying the success boolean; no event before it is a
completion event, and every event after it is an informational message
(the Workspace Cleaner messages emitted by the `finally` block after
`finished_signal`). -/
theorem c9_event_structure (env : Env) (cok : Nat → Bool) (iok : Bool)
    (inp : RunInput) (fs : FS) :
    ∃ l1 b l2, (installerRun env cok iok inp fs).2 = l1 ++ Event.finished b :: l2 ∧
      hasFin l1 = false ∧ allMsg l2 = true ∧
      ∀ e ∈ l2, ∃ s, e = Event.message s := by
  rcases hb : runBody env inp fs with ⟨fs1, evs, ok⟩
  rcases hc : cleanupPhase cok iok inp.homeDir inp.appName fs1 with ⟨fs2, evsC⟩
  have h1 := runBody_hasFin env inp fs
  rw [hb] at h1
  have h2 := cleanupPhase_allMsg cok iok inp.homeDir inp.appName fs1
  rw [hc] at h2
  refine ⟨evs, ok, evsC, ?_, h1, h2, fun e he => allMsg_mem evsC e h2 he⟩
  unfold installerRun
  rw [hb]
  dsimp only
  rw [hc]

/-! ## Removal lemmas and Claim C4 — the workspace cleaner -/

theorem lookup_rmtree_inTree (fs : FS) (p q : Path) (h : inTree p q = true) :
    lookupFS (rmtreeFS fs p) q = none := by
  induction fs with
  | nil => rfl
  | cons e rest ih =>
      simp only [rmtreeFS, List.filter_cons]
      split
      · rename_i hk
        have hne : e.1 ≠ q := by
          intro heq

          rw [heq] at hk
          simp [h] at hk
        rw [lookupFS, if_neg hne]
        simpa [rmtreeFS] using ih
      · simpa [rmtreeFS] using ih

theorem lookup_rmtree_not_inTree (fs : FS) (p q : Path) (h : inTree p q = false) :
    lookupFS (rmtreeFS fs p) q = lookupFS fs q := by
  induction fs with
  | nil => rfl
  | cons e rest ih =>
      simp only [rmtreeFS, List.filter_cons]
      split
      · rename_i hk
        rw [lookupFS, lookupFS]
        by_cases he : e.1 = q
        · rw [if_pos he, if_pos he]
        · rw [if_neg he, if_neg he]
          simpa [rmtreeFS] using ih
      · rename_i hk
        have hne : e.1 ≠ q := by
          intro heq
          rw [heq] at hk
          simp [h] at hk
        rw [lookupFS, if_neg hne]
        simpa [rmtreeFS] using ih

theorem inTree_self (p : Path) : inTree p p = true := by
  simp [inTree]

theorem exists_rmtree_self (fs : FS) (p : Path) : existsFS (rmtreeFS fs p) p = false := by
  simp [existsFS, lookup_rmtree_inTree fs p p (inTree_self p)]

theorem exists_of_exists_rmtree (fs : FS) (p q : Path)
    (h : existsFS (rmtreeFS fs p) q = true) : existsFS fs q = true := by
  by_cases ht : inTree p q = true
  · rw [existsFS, lookup_rmtree_inTree fs p q ht] at h
    simp at h
  · rw [existsFS, lookup_rmtree_not_inTree fs p q (by simpa using ht)] at h
    exact h

theorem cleanupRetry_success (cok : Nat → Bool) (tempS : String) (tempP : Path) :
    ∀ a r fs, (∃ k, k < r ∧ cok (a + k) = true) →
      (cleanupRetry cok tempS tempP a r fs).1 = rmtreeFS fs tempP := by
  intro a r
  induction r generalizing a with
  | zero =>
      intro fs h
      rcases h with ⟨k, hk, _⟩
      omega
  | succ r ih =>
      intro fs h
      simp only [cleanupRetry]
      by_cases ha : cok a = true
      · rw [if_pos ha]
      · rw [if_neg ha]
        rcases h with ⟨k, hk, hck⟩
        rcases k with _ | k
        · simp at hck
          exact absurd hck ha
        · have hr : r ≠ 0 := by omega
          rw [if_neg (by simpa using hr)]
          rcases hrec : cleanupRetry cok tempS tempP (a + 1) r fs with ⟨fs1, evs⟩
          have h2 := ih (a + 1) fs ⟨k, by omega, by
            have : a + 1 + k = a + (k + 1) := by omega
            rw [this]
            exact hck⟩
          rw [hrec] at h2
          exact h2

theorem cleanupRetry_allFail (cok : Nat → Bool) (tempS : String) (tempP : Path)
    (hall : ∀ k, cok k = false) :
    ∀ a r fs, (cleanupRetry cok tempS tempP a r fs).1 = fs ∧
      (cleanupRetry cok tempS tempP a r fs).2.length = r := by
  intro a r
  induction r generalizing a with
  | zero => intro fs; exact ⟨rfl, rfl⟩
  | succ r ih =>
      intro fs
      simp only [cleanupRetry]
      rw [if_neg (by simp [hall a])]
      by_cases hr : r = 0
      · subst hr
        simp
      · rw [if_neg (by simpa using hr)]
        rcases hrec : cleanupRetry cok tempS tempP (a + 1) r fs with ⟨fs1, evs⟩
        have h2 := ih (a + 1) fs
        rw [hrec] at h2
        exact ⟨h2.1, by simp [h2.2]⟩

theorem cleanupPhase_removes (cok : Nat → Bool) (iok : Bool) (home appName : String)
    (fs : FS) (hsucc : ∃ k, k < 5 ∧ cok k = true) (hicon : iok = true) :
    existsFS (cleanupPhase cok iok home appName fs).1
      (parsePath (joinPath home (tempDirName appName))) = false ∧
    existsFS (cleanupPhase cok iok home appName fs).1
      (parsePath (joinPath home (iconDirName appName))) = false := by
  subst hicon
  unfold cleanupPhase
  dsimp only
  set pA := (if existsFS fs (parsePath (joinPath home (tempDirName appName))) = true
      then cleanupRetry cok (joinPath home (tempDirName appName))
        (parsePath (joinPath home (tempDirName appName))) 0 5 fs
      else (fs, [])) with hpA
  have hA : existsFS pA.1 (parsePath (joinPath home (tempDirName appName))) = false := by
    rw [hpA]
    split
    · rw [cleanupRetry_success cok _ _ 0 5 fs (by simpa using hsucc)]
      exact exists_rmtree_self _ _
    · rename_i he
      simpa using he
  simp only [if_true]
  split
  · constructor
    · dsimp only
      by_cases hm : existsFS (rmtreeFS pA.1
          (parsePath (joinPath home (iconDirName appName))))
          (parsePath (joinPath home (tempDirName appName))) = true
      · have h2 := exists_of_exists_rmtree _ _ _ hm
        rw [hA] at h2
        simp at h2
      · simpa using hm
    · exact exists_rmtree_self _ _
  · rename_i hi
    refine ⟨hA, ?_⟩
    simpa using hi

theorem not_finished_mem_of_hasFin (l : List Event) (b : Bool) (h : hasFin l = false) :
    Event.finished b ∉ l := by
  intro hm
  simp only [hasFin, List.any_eq_false] at h
  have h2 := h _ hm
  simp [eventIsFinished] at h2

/-- C4: on every exit path the Workspace Cleaner runs last — the run trace
is the body trace, then the completion event, then the cleaner messages,
and the final filesystem is the cleaner applied to the body filesystem;
when one of the five removal attempts succeeds (and the single icon
removal succeeds) neither the staging directory nor the icon-preview
directory exists afterwards; the reported success boolean does not depend
on the cleanup outcome; and when all attempts fail, exactly 5 attempts are
logged and the staging directory is left in place (a fatal cleanup error,
not a fatal install error). -/
theorem c4_workspace_cleaner (env : Env) (cok : Nat → Bool) (iok : Bool)
    (inp : RunInput) (fs : FS)
    (hsucc : ∃ k, k < 5 ∧ cok k = true) (hicon : iok = true) :
    existsFS (installerRun env cok iok inp fs).1
      (parsePath (joinPath inp.homeDir (tempDirName inp.appName))) = false ∧
    existsFS (installerRun env cok iok inp fs).1
      (parsePath (joinPath inp.homeDir (iconDirName inp.appName))) = false ∧
    (installerRun env cok iok inp fs).2 =
      (runBody env inp fs).2.1 ++ Event.finished (runBody env inp fs).2.2 ::
        (cleanupPhase cok iok inp.homeDir inp.appName (runBody env inp fs).1).2 ∧
    (installerRun env cok iok inp fs).1 =
      (cleanupPhase cok iok inp.homeDir inp.appName (runBody env inp fs).1).1 ∧
    (∀ cok2 iok2 b, Event.finished b ∈ (installerRun env cok2 iok2 inp fs).2 ↔
        b = (runBody env inp fs).2.2) ∧
    (∀ cok2 fs2, (∀ k, cok2 k = false) →
      (cleanupRetry cok2 (joinPath inp.homeDir (tempDirName inp.appName))
        (parsePath (joinPath inp.homeDir (tempDirName inp.appName))) 0 5 fs2).2.length = 5 ∧
      (cleanupRetry cok2 (joinPath inp.homeDir (tempDirName inp.appName))
        (parsePath (joinPath inp.homeDir (tempDirName inp.appName))) 0 5 fs2).1 = fs2) := by
  rcases hb : runBody env inp fs with ⟨fs1, evs, ok⟩
  have hrm := cleanupPhase_removes cok iok inp.homeDir inp.appName fs1 hsucc hicon
  have hrun : installerRun env cok iok inp fs =
      ((cleanupPhase cok iok inp.homeDir inp.appName fs1).1,
       evs ++ Event.finished ok :: (cleanupPhase cok iok inp.homeDir inp.appName fs1).2) := by
    unfold installerRun
    rw [hb]
  refine ⟨by rw [hrun]; exact hrm.1, by rw [hrun]; exact hrm.2,
    by simp only [hrun], by simp only [hrun], ?_, ?_⟩
  · intro cok2 iok2 b
    have hrun2 : installerRun env cok2 iok2 inp fs =
        ((cleanupPhase cok2 iok2 inp.homeDir inp.appName fs1).1,
         evs ++ Event.finished ok ::
           (cleanupPhase cok2 iok2 inp.homeDir inp.appName fs1).2) := by
      unfold installerRun
      rw [hb]
    rw [hrun2]
    have h1 : hasFin evs = false := by
      have h0 := runBody_hasFin env inp fs
      rw [hb] at h0
      exact h0
    have h2 : allMsg (cleanupPhase cok2 iok2 inp.homeDir inp.appName fs1).2 = true :=
      cleanupPhase_allMsg cok2 iok2 inp.homeDir inp.appName fs1
    constructor
    · intro hm
      rcases List.mem_append.mp hm with hm1 | hm2
      · exact absurd hm1 (not_finished_mem_of_hasFin evs b h1)
      · rcases List.mem_cons.mp hm2 with hm3 | hm4
        · cases hm3
          rfl
        · exact absurd hm4 (not_finished_mem_of_hasFin _ b
            (allMsg_hasFin _ h2))
    · intro hbk
      subst hbk
      exact List.mem_append.mpr (Or.inr (List.mem_cons_self _ _))
  · intro cok2 fs2 hall
    have h := cleanupRetry_allFail cok2 (joinPath inp.homeDir (tempDirName inp.appName))
      (parsePath (joinPath inp.homeDir (tempDirName inp.appName))) hall 0 5 fs2
    exact ⟨h.2, h.1⟩

theorem c4_workspace_cleaner_witness :
    existsFS (installerRun allOkEnv (fun _ => true) true c9Inp
      [(["h", ".a_installer_temp_extract"], Node.dir),
       (["h", ".a_installer_display_temp_icon"], Node.dir)]).1
      (parsePath (joinPath "/h" (tempDirName "A"))) = false ∧
    existsFS (installerRun allOkEnv (fun _ => true) true c9Inp
      [(["h", ".a_installer_temp_extract"], Node.dir),
       (["h", ".a_installer_display_temp_icon"], Node.dir)]).1
      (parsePath (joinPath "/h" (iconDirName "A"))) = false :=
  ⟨(c4_workspace_cleaner allOkEnv (fun _ => true) true c9Inp
      [(["h", ".a_installer_temp_extract"], Node.dir),
       (["h", ".a_installer_display_temp_icon"], Node.dir)]
      ⟨0, by decide, rfl⟩ rfl).1,
   (c4_workspace_cleaner allOkEnv (fun _ => true) true c9Inp
      [(["h", ".a_installer_temp_extract"], Node.dir),
       (["h", ".a_installer_display_temp_icon"], Node.dir)]
      ⟨0, by decide, rfl⟩ rfl).2.1⟩

/-! ## Preservation lemmas for `makedirs`, and Claim C5 — per-rule failures -/

theorem lookup_addDirIfMissing_some (fs : FS) (q p : Path) (n : Node)
    (h : lookupFS fs p = some n) : lookupFS (addDirIfMissing fs q) p = some n := by
  unfold addDirIfMissing
  split
  · exact h
  · rename_i hq
    have hne : q ≠ p := by
      intro heq
      subst heq
      simp [existsFS, h] at hq
    rw [lookupFS, if_neg (by simpa using hne)]
    exact h

theorem lookup_foldl_addDir_some (l : List Path) :
    ∀ fs p n, lookupFS fs p = some n →
      lookupFS (l.foldl addDirIfMissing fs) p = some n := by
  induction l with
  | nil => intro fs p n h; exact h
  | cons q rest ih =>
      intro fs p n h
      simp only [List.foldl_cons]
      exact ih _ p n (lookup_addDirIfMissing_some fs q p n h)

theorem lookup_makedirsAll_some (fs : FS) (q p : Path) (n : Node)
    (h : lookupFS fs p = some n) : lookupFS (makedirsAll fs q) p = some n :=
  lookup_foldl_addDir_some (initSegs q) fs p n h

theorem makedirsStrExc_ok_val (fs : FS) (s : String)
    (h : (makedirsStrExc fs s).isOk = true) :
    makedirsStrExc fs s = Except.ok (makedirsAll fs (parsePath s)) := by
  unfold makedirsStrExc at h ⊢
  split at h
  · simp [Except.isOk, Except.toBool] at h
  · rename_i h1
    split at h
    · simp [Except.isOk, Except.toBool] at h
    · rename_i h2
      rw [if_neg h1, if_neg h2]

/-- The Scenario-D input: one mapping rule whose `source_root` is absent
from the staged archive. -/
def c5Inp : RunInput :=
  { zipValid := true, archive := [(["b"], Node.file 420 false "x")], appName := "A",
    executableName := "e", iconPath := "i", metaTerminal := none, metaType := none,
    metaCategories := none, installMap := [⟨some "nosuch", some "$HOME/.local/x"⟩],
    homeDir := "/h" }

/-- C5 counterexample: the full event trace of a run containing a rule
whose `source_root` is absent from the staging directory.  The run
completes with success and the rule is skipped, but no log or warning
message is emitted for the rule — the trace below contains no message
mentioning it, refuting the claim that a missing staged source produces a
logged warning (in `setup.py` the `if os.path.exists(...)` guard at line
204 has no `else`). -/
theorem c5_missing_source_silent_counterexample :
    (installerRun allOkEnv (fun _ => true) true c5Inp []).2 =
      [Event.message "Gettin a temp spot ready: /h/.a_installer_temp_extract",
       Event.progress 50,
       Event.progress 100,
       Event.message "Heads up: Cant find e at /h/e",
       Event.message "Yo, the icon i aint at /h/i",
       Event.message "Whippin up desktop entry: /h/.local/share/applications/a.desktop",
       Event.message "Refreshin that desktop icon cache...",
       Event.message "Desktop icon cache? Smooothly updated.",
       Event.message "Boom! Installation Done!",
       Event.finished true,
       Event.message "Temp directory cleaned up, easy peasy: /h/.a_installer_temp_extract"]
    := by
  decide

/-- C5 (amended): per-rule failure handling of the Install Mapper.
(1) A rule whose staged source is missing is skipped silently — the
filesystem is untouched, only the progress event is emitted, no message —
and the loop continues with the next rule.  (2) A failed removal of a
pre-existing directory destination (with a directory source) is logged as
a warning, the subsequent copy fails and is logged, and the rule ends
non-fatally.  (3) A copy failure for a file source is logged and the rule
ends non-fatally.  In all three cases the run goes on and may still
report success. -/
theorem c5_per_rule_failures (env : Env) (home tempS execName : String) (i total : Nat)
    (m : MappingRule) (rest : List MappingRule) (fs : FS) :
    (ruleComplete m = true →
      existsFS fs (parsePath (joinPath tempS (m.source_root.getD ""))) = false →
      mapStep env home tempS execName i total m fs =
        (fs, [Event.progress (50 + (i + 1) * 50 / total)], true) ∧
      mappingLoop env home tempS execName i total (m :: rest) fs =
        ((mappingLoop env home tempS execName (i + 1) total rest fs).1,
         Event.progress (50 + (i + 1) * 50 / total) ::
           (mappingLoop env home tempS execName (i + 1) total rest fs).2.1,
         (mappingLoop env home tempS execName (i + 1) total rest fs).2.2)) ∧
    (ruleComplete m = true →
      lookupFS fs (parsePath (joinPath tempS (m.source_root.getD ""))) = some Node.dir →
      lookupFS fs (parsePath (replaceAllStr (m.destination_root.getD "") "$HOME" home)) =
        some Node.dir →
      env.destRemoveFails i = true →
      (makedirsStrExc fs (replaceAllStr (m.destination_root.getD "") "$HOME" home)).isOk
        = true →
      mapStep env home tempS execName i total m fs =
        (makedirsAll fs (parsePath (replaceAllStr (m.destination_root.getD "") "$HOME" home)),
         [Event.message ("Clearin out old stuff at: " ++
            replaceAllStr (m.destination_root.getD "") "$HOME" home),
          Event.message ("Warning: Couldnt wipe " ++
            replaceAllStr (m.destination_root.getD "") "$HOME" home),
          Event.message ("Copy fail from " ++ m.source_root.getD "" ++ " to " ++
            replaceAllStr (m.destination_root.getD "") "$HOME" home),
          Event.progress (50 + (i + 1) * 50 / total)], true)) ∧
    (ruleComplete m = true →
      (∃ mo sy co, lookupFS fs (parsePath (joinPath tempS (m.source_root.getD ""))) =
        some (Node.file mo sy co)) →
      existsFS fs (parsePath (replaceAllStr (m.destination_root.getD "") "$HOME" home))
        = false →
      env.copyFails i = true →
      (makedirsStrExc fs (dirnameStr (replaceAllStr (m.destination_root.getD "")
        "$HOME" home))).isOk = true →
      mapStep env home tempS execName i total m fs =
        (makedirsAll fs (parsePath (dirnameStr (replaceAllStr (m.destination_root.getD "")
           "$HOME" home))),
         [Event.message ("Copy fail from " ++ m.source_root.getD "" ++ " to " ++
            replaceAllStr (m.destination_root.getD "") "$HOME" home),
          Event.progress (50 + (i + 1) * 50 / total)], true)) := by
  refine ⟨?_, ?_, ?_⟩
  · intro hc hmiss
    have hstep : mapStep env home tempS execName i total m fs =
        (fs, [Event.progress (50 + (i + 1) * 50 / total)], true) := by
      unfold mapStep
      rw [if_neg (by simp [hc]), if_neg (by simp [hmiss])]
    refine ⟨hstep, ?_⟩
    simp only [mappingLoop]
    rw [hstep]
    dsimp only
    rcases hlp : mappingLoop env home tempS execName (i + 1) total rest fs with ⟨fs2, evs2, ok2⟩
    rfl
  · intro hc hsrc hdst hfail hmk
    have hex : existsFS fs (parsePath (joinPath tempS (m.source_root.getD ""))) = true := by
      simp [existsFS, hsrc]
    have hexd : existsFS fs (parsePath (replaceAllStr (m.destination_root.getD "")
        "$HOME" home)) = true := by
      simp [existsFS, hdst]
    have hrm : removalStep env i (replaceAllStr (m.destination_root.getD "") "$HOME" home)
        (parsePath (replaceAllStr (m.destination_root.getD "") "$HOME" home)) fs =
        (fs, [Event.message ("Clearin out old stuff at: " ++
            replaceAllStr (m.destination_root.getD "") "$HOME" home),
          Event.message ("Warning: Couldnt wipe " ++
            replaceAllStr (m.destination_root.getD "") "$HOME" home)]) := by
      unfold removalStep
      rw [if_pos hexd, if_pos hfail]
    have hnotfile : isFileFS fs (parsePath (joinPath tempS (m.source_root.getD ""))) =
        false := by
      simp [isFileFS, hsrc]
    have hmkeq := makedirsStrExc_ok_val fs
      (replaceAllStr (m.destination_root.getD "") "$HOME" home) hmk
    have hsrc2 : lookupFS (makedirsAll fs (parsePath (replaceAllStr
        (m.destination_root.getD "") "$HOME" home)))
        (parsePath (joinPath tempS (m.source_root.getD ""))) = some Node.dir :=
      lookup_makedirsAll_some _ _ _ _ hsrc
    have hdst2 : lookupFS (makedirsAll fs (parsePath (replaceAllStr
        (m.destination_root.getD "") "$HOME" home)))
        (parsePath (replaceAllStr (m.destination_root.getD "") "$HOME" home)) =
        some Node.dir :=
      lookup_makedirsAll_some _ _ _ _ hdst
    have hcp : copyStep env i (m.source_root.getD "")
        (replaceAllStr (m.destination_root.getD "") "$HOME" home) execName
        (parsePath (joinPath tempS (m.source_root.getD "")))
        (parsePath (replaceAllStr (m.destination_root.getD "") "$HOME" home))
        (makedirsAll fs (parsePath (replaceAllStr (m.destination_root.getD "")
          "$HOME" home))) =
        (makedirsAll fs (parsePath (replaceAllStr (m.destination_root.getD "")
          "$HOME" home)),
         [Event.message ("Copy fail from " ++ m.source_root.getD "" ++ " to " ++
            replaceAllStr (m.destination_root.getD "") "$HOME" home)]) := by
      unfold copyStep
      rw [if_pos (by simp [isDirFS, hsrc2])]
      have hct : copytreeFS (makedirsAll fs (parsePath (replaceAllStr
          (m.destination_root.getD "") "$HOME" home)))
          (parsePath (joinPath tempS (m.source_root.getD "")))
          (parsePath (replaceAllStr (m.destination_root.getD "") "$HOME" home)) =
          Except.error () := by
        unfold copytreeFS
        rw [if_pos (by simp [existsFS, hdst2])]
      rw [hct]
    unfold mapStep
    rw [if_neg (by simp [hc]), if_pos hex, hrm]
    dsimp only
    rw [if_neg (by simp [hnotfile]), hmkeq]
    dsimp only
    rw [hcp]
    rfl
  · intro hc hsrc hdstmiss hfail hmk
    rcases hsrc with ⟨mo, sy, co, hsrc⟩
    have hex : existsFS fs (parsePath (joinPath tempS (m.source_root.getD ""))) = true := by
      simp [existsFS, hsrc]
    have hrm : removalStep env i (replaceAllStr (m.destination_root.getD "") "$HOME" home)
        (parsePath (replaceAllStr (m.destination_root.getD "") "$HOME" home)) fs =
        (fs, []) := by
      unfold removalStep
      rw [if_neg (by simp [hdstmiss])]
    have hisfile : isFileFS fs (parsePath (joinPath tempS (m.source_root.getD ""))) =
        true := by
      simp [isFileFS, hsrc]
    have hmkeq := makedirsStrExc_ok_val fs
      (dirnameStr (replaceAllStr (m.destination_root.getD "") "$HOME" home)) hmk
    have hsrc2 : lookupFS (makedirsAll fs (parsePath (dirnameStr (replaceAllStr
        (m.destination_root.getD "") "$HOME" home))))
        (parsePath (joinPath tempS (m.source_root.getD ""))) = some (Node.file mo sy co) :=
      lookup_makedirsAll_some _ _ _ _ hsrc
    have hcp : copyStep env i (m.source_root.getD "")
        (replaceAllStr (m.destination_root.getD "") "$HOME" home) execName
        (parsePath (joinPath tempS (m.source_root.getD "")))
        (parsePath (replaceAllStr (m.destination_root.getD "") "$HOME" home))
        (makedirsAll fs (parsePath (dirnameStr (replaceAllStr (m.destination_root.getD "")
          "$HOME" home)))) =
        (makedirsAll fs (parsePath (dirnameStr (replaceAllStr (m.destination_root.getD "")
          "$HOME" home))),
         [Event.message ("Copy fail from " ++ m.source_root.getD "" ++ " to " ++
            replaceAllStr (m.destination_root.getD "") "$HOME" home)]) := by
      unfold copyStep
      rw [if_neg (by simp [isDirFS, hsrc2]), if_pos hfail]
    unfold mapStep
    rw [if_neg (by simp [hc]), if_pos hex, hrm]
    dsimp only
    rw [if_pos (by simp [hisfile]), hmkeq]
    dsimp only
    rw [hcp]
    rfl

/-- A fault environment whose destination removals fail. -/
def failRemoveEnv : Env :=
  { allOkEnv with destRemoveFails := fun _ => true }

/-- A fault environment whose `shutil.copy2` calls fail. -/
def failCopyEnv : Env :=
  { allOkEnv with copyFails := fun _ => true }

theorem c5_per_rule_failures_witness :
    (mapStep allOkEnv "/h" "/h/t" "e" 0 1 ⟨some "nosuch", some "$HOME/x"⟩
        [(["h"], Node.dir), (["h", "t"], Node.dir)] =
      ([(["h"], Node.dir), (["h", "t"], Node.dir)], [Event.progress 100], true)) ∧
    (mapStep failRemoveEnv "/h" "/h/t" "e" 0 1 ⟨some "src", some "$HOME/d"⟩
        [(["h"], Node.dir), (["h", "t"], Node.dir), (["h", "t", "src"], Node.dir),
         (["h", "d"], Node.dir)] =
      (makedirsAll [(["h"], Node.dir), (["h", "t"], Node.dir), (["h", "t", "src"], Node.dir),
         (["h", "d"], Node.dir)] (parsePath (replaceAllStr "$HOME/d" "$HOME" "/h")),
       [Event.message "Clearin out old stuff at: /h/d",
        Event.message "Warning: Couldnt wipe /h/d",
        Event.message "Copy fail from src to /h/d",
        Event.progress 100], true)) ∧
    (mapStep failCopyEnv "/h" "/h/t" "e" 0 1 ⟨some "f", some "$HOME/d2"⟩
        [(["h"], Node.dir), (["h", "t"], Node.dir),
         (["h", "t", "f"], Node.file 420 false "x")] =
      (makedirsAll [(["h"], Node.dir), (["h", "t"], Node.dir),
         (["h", "t", "f"], Node.file 420 false "x")]
         (parsePath (dirnameStr (replaceAllStr "$HOME/d2" "$HOME" "/h"))),
       [Event.message "Copy fail from f to /h/d2",
        Event.progress 100], true)) :=
  ⟨((c5_per_rule_failures allOkEnv "/h" "/h/t" "e" 0 1 ⟨some "nosuch", some "$HOME/x"⟩ []
      [(["h"], Node.dir), (["h", "t"], Node.dir)]).1 (by decide) (by decide)).1,
   (c5_per_rule_failures failRemoveEnv "/h" "/h/t" "e" 0 1 ⟨some "src", some "$HOME/d"⟩ []
      [(["h"], Node.dir), (["h", "t"], Node.dir), (["h", "t", "src"], Node.dir),
       (["h", "d"], Node.dir)]).2.1 (by decide) (by decide) (by decide) rfl (by decide),
   (c5_per_rule_failures failCopyEnv "/h" "/h/t" "e" 0 1 ⟨some "f", some "$HOME/d2"⟩ []
      [(["h"], Node.dir), (["h", "t"], Node.dir),
       (["h", "t", "f"], Node.file 420 false "x")]).2.2 (by decide)
      ⟨420, false, "x", by decide⟩ (by decide) rfl (by decide)⟩

/-! ## Progress-trace lemmas and Claim C6 — progress events -/

theorem progressVals_append (a b : List Event) :
    progressVals (a ++ b) = progressVals a ++ progressVals b := by
  simp [progressVals]

theorem allMsg_progressVals (l : List Event) (h : allMsg l = true) : progressVals l = [] := by
  induction l with
  | nil => rfl
  | cons e rest ih =>
      simp only [allMsg, List.all_cons, Bool.and_eq_true] at h
      cases e with
      | message s =>
          simp only [progressVals, List.filterMap_cons]
          simp only [progressVals] at ih
          exact ih h.2
      | progress n => simp at h
      | finished b => simp at h

theorem normEvent_is_message (dst : Path) (eb : String) (e : Path × Node) (ev : Event)
    (h : normEvent dst eb e = some ev) : ∃ s, ev = Event.message s := by
  rcases e with ⟨p, n⟩
  cases n with
  | dir => simp [normEvent] at h
  | file m sym c =>
      simp only [normEvent] at h
      split at h
      · cases h
        exact ⟨_, rfl⟩
      · simp at h

theorem normalizeTree_allMsg (fs : FS) (dst : Path) (eb : String) :
    allMsg (normalizeTree fs dst eb).2 = true := by
  simp only [normalizeTree]
  induction fs with
  | nil => rfl
  | cons e rest ih =>
      simp only [List.filterMap_cons]
      cases he : normEvent dst eb e with
      | none => exact ih
      | some ev =>
          rcases normEvent_is_message dst eb e ev he with ⟨s, hs⟩
          subst hs
          simp only [allMsg, List.all_cons]
          simp only [allMsg] at ih
          simp [ih]

theorem normalizeSingle_allMsg (fs : FS) (dstP : Path) (dstS : String) (eb : String) :
    allMsg (normalizeSingle fs dstP dstS eb).2 = true := by
  unfold normalizeSingle
  split
  · rfl
  · split
    · split
      · split <;> rfl
      · rfl
    · rfl

theorem normalizeAfterCopy_allMsg (fs : FS) (dstP : Path) (dstS : String) (execName : String) :
    allMsg (normalizeAfterCopy fs dstP dstS execName).2 = true := by
  unfold normalizeAfterCopy
  split
  · exact normalizeTree_allMsg fs dstP (basenameStr execName)
  · split
    · exact normalizeSingle_allMsg fs dstP dstS (basenameStr execName)
    · rfl

theorem copyStep_allMsg (env : Env) (i : Nat) (sr dstS execName : String) (srcP dstP : Path)
    (fs2 : FS) : allMsg (copyStep env i sr dstS execName srcP dstP fs2).2 = true := by
  unfold copyStep
  split
  · split
    · rfl
    · exact normalizeAfterCopy_allMsg _ _ _ _
  · split
    · rfl
    · split
      · rfl
      · exact normalizeAfterCopy_allMsg _ _ _ _

theorem mapStep_ok_progress (env : Env) (home tempS execName : String) (i total : Nat)
    (m : MappingRule) (fs : FS) (hc : ruleComplete m = true) :
    (mapStep env home tempS execName i total m fs).2.2 = true →
    progressVals (mapStep env home tempS execName i total m fs).2.1 =
      [50 + (i + 1) * 50 / total] := by
  unfold mapStep
  rw [if_neg (by simp [hc])]
  split
  · rcases hrm : removalStep env i
        (replaceAllStr (m.destination_root.getD "") "$HOME" home)
        (parsePath (replaceAllStr (m.destination_root.getD "") "$HOME" home)) fs with
      ⟨fs1, evs1⟩
    have h1 : progressVals evs1 = [] := by
      have h0 := removalStep_allMsg env i
        (replaceAllStr (m.destination_root.getD "") "$HOME" home)
        (parsePath (replaceAllStr (m.destination_root.getD "") "$HOME" home)) fs
      rw [hrm] at h0
      exact allMsg_progressVals _ h0
    dsimp only
    split
    · intro h
      simp at h
    · rename_i fs2 heq
      rcases hcp : copyStep env i (m.source_root.getD "")
          (replaceAllStr (m.destination_root.getD "") "$HOME" home) execName
          (parsePath (joinPath tempS (m.source_root.getD "")))
          (parsePath (replaceAllStr (m.destination_root.getD "") "$HOME" home)) fs2 with
        ⟨fs3, evs3⟩
      have h3 : progressVals evs3 = [] := by
        have h0 := copyStep_allMsg env i (m.source_root.getD "")
          (replaceAllStr (m.destination_root.getD "") "$HOME" home) execName
          (parsePath (joinPath tempS (m.source_root.getD "")))
          (parsePath (replaceAllStr (m.destination_root.getD "") "$HOME" home)) fs2
        rw [hcp] at h0
        exact allMsg_progressVals _ h0
      intro _
      dsimp only
      rw [progressVals_append, progressVals_append, h1, h3]
      rfl
  · intro _
    rfl

theorem extractPhase_ok_progress (env : Env) (tempP : Path) (total : Nat) :
    ∀ i l fs, (extractPhase env tempP total i l fs).2.2 = true →
      progressVals (extractPhase env tempP total i l fs).2.1 =
        (List.range l.length).map (fun k => pyProg (i + k + 1) total) := by
  intro i l
  induction l generalizing i with
  | nil => intro fs _; rfl
  | cons e rest ih =>
      intro fs
      simp only [extractPhase]
      split
      · intro h
        simp at h
      · rcases hrec : extractPhase env tempP total (i + 1) rest (extractEntry fs tempP e) with
          ⟨fs2, evs, ok⟩
        intro h
        have h2 := ih (i + 1) (extractEntry fs tempP e)
        rw [hrec] at h2
        have h3 := h2 h
        simp only [List.length_cons, List.range_succ_eq_map, List.map_cons, List.map_map]
        simp only [progressVals, List.filterMap_cons] at h3 ⊢
        rw [h3]
        have harith : ∀ k, i + 1 + k + 1 = i + (k + 1) + 1 := by omega
        simp [Function.comp, harith]

theorem mappingLoop_ok_progress (env : Env) (home tempS execName : String) :
    ∀ i total l fs, l.all ruleComplete = true →
      (mappingLoop env home tempS execName i total l fs).2.2 = true →
      progressVals (mappingLoop env home tempS execName i total l fs).2.1 =
        (List.range l.length).map (fun k => 50 + (i + k + 1) * 50 / total) := by
  intro i total l
  induction l generalizing i with
  | nil => intro fs _ _; rfl
  | cons m rest ih =>
      intro fs hall hok
      simp only [List.all_cons, Bool.and_eq_true] at hall
      simp only [mappingLoop] at hok ⊢
      rcases hst : mapStep env home tempS execName i total m fs with ⟨fs1, evs1, ok1⟩
      rw [hst] at hok
      dsimp only at hok ⊢
      cases ok1 with
      | false => simp at hok
      | true =>
        simp only [Bool.not_true, Bool.false_eq_true, if_false] at hok ⊢
        rcases hrec : mappingLoop env home tempS execName (i + 1) total rest fs1 with
          ⟨fs2, evs2, ok2⟩
        rw [hrec] at hok
        dsimp only at hok ⊢
        have hstep := mapStep_ok_progress env home tempS execName i total m fs hall.1
        rw [hst] at hstep
        have hstep2 := hstep rfl
        have h2 := ih (i + 1) fs1 hall.2
        rw [hrec] at h2
        have h3 := h2 hok
        rw [progressVals_append, hstep2, h3]
        simp only [List.length_cons, List.range_succ_eq_map, List.map_cons, List.map_map]
        have harith : ∀ k, i + 1 + k + 1 = i + (k + 1) + 1 := by omega
        simp [Function.comp, harith]

theorem runBody_ok_progress (env : Env) (inp : RunInput) (fs : FS)
    (hzip : inp.zipValid = true)
    (hmm : (inp.installMap.length == 0) = false)
    (hall : inp.installMap.all ruleComplete = true) :
    (runBody env inp fs).2.2 = true →
    progressVals (runBody env inp fs).2.1 =
      (List.range inp.archive.length).map (fun k => pyProg (k + 1) inp.archive.length) ++
      (List.range inp.installMap.length).map
        (fun k => 50 + (k + 1) * 50 / inp.installMap.length) := by
  unfold runBody
  rw [if_neg (by simp [hzip])]
  dsimp only
  split
  · intro h
    simp at h
  · rename_i fs1 hmk
    rcases hex : extractPhase env (parsePath (joinPath inp.homeDir (tempDirName inp.appName)))
        inp.archive.length 0 inp.archive fs1 with ⟨fs2, evsE, okE⟩
    dsimp only
    cases okE with
    | false => simp
    | true =>
      simp only [Bool.not_true, Bool.false_eq_true, if_false]
      rw [hmm]
      simp only [Bool.false_eq_true, if_false]
      rcases hml : mappingLoop env inp.homeDir
          (joinPath inp.homeDir (tempDirName inp.appName)) inp.executableName 0
          inp.installMap.length inp.installMap fs2 with ⟨fs3, evsM, okM⟩
      dsimp only
      cases okM with
      | false => simp
      | true =>
        simp only [Bool.not_true, Bool.false_eq_true, if_false]
        rcases hde : createDesktopEntry env inp.homeDir inp.appName inp.executableName
            inp.iconPath inp.metaTerminal inp.metaType inp.metaCategories fs3 with
          ⟨fs4, evsD, okD⟩
        dsimp only
        cases okD with
        | false => simp
        | true =>
          simp only [Bool.not_true, Bool.false_eq_true, if_false]
          intro _
          have hE := extractPhase_ok_progress env
            (parsePath (joinPath inp.homeDir (tempDirName inp.appName)))
            inp.archive.length 0 inp.archive fs1
          rw [hex] at hE
          have hE2 := hE rfl
          have hM := mappingLoop_ok_progress env inp.homeDir
            (joinPath inp.homeDir (tempDirName inp.appName)) inp.executableName 0
            inp.installMap.length inp.installMap fs2 hall
          rw [hml] at hM
          have hM2 := hM rfl
          have hD : progressVals evsD = [] := by
            have h0 := createDesktopEntry_allMsg env inp.homeDir inp.appName
              inp.executableName inp.iconPath inp.metaTerminal inp.metaType
              inp.metaCategories fs3
            rw [hde] at h0
            exact allMsg_progressVals _ h0
          have hC : progressVals (iconCachePhase env) = [] :=
            allMsg_progressVals _ (iconCachePhase_allMsg env)
          dsimp only at hE2 hM2
          simp only [progressVals, List.filterMap_cons, List.filterMap_append] at hE2 hM2 hD hC ⊢
          rw [hE2, hM2, hD, hC]
          simp

theorem rhe_eq (den m0 r : Nat) (hden : 0 < den) (hr : r < den) :
    rhe (den * m0 + r) den =
      if 2 * r < den then m0 else if den < 2 * r then m0 + 1
      else if m0 % 2 = 0 then m0 else m0 + 1 := by
  unfold rhe
  rw [Nat.mul_add_div hden, Nat.div_eq_of_lt hr, Nat.add_zero,
    Nat.mul_add_mod, Nat.mod_eq_of_lt hr]

theorem rhe_ge (num den : Nat) : num / den ≤ rhe num den := by
  unfold rhe
  repeat' split
  all_goals omega

theorem rhe_le (num den : Nat) : rhe num den ≤ num / den + 1 := by
  unfold rhe
  repeat' split
  all_goals omega

theorem rhe_mono_aux (den m0 r m1 r' : Nat) (hden : 0 < den) (hr : r < den)
    (hr' : r' < den) (h : den * m0 + r ≤ den * m1 + r') :
    rhe (den * m0 + r) den ≤ rhe (den * m1 + r') den := by
  rw [rhe_eq den m0 r hden hr, rhe_eq den m1 r' hden hr']
  have hm : m0 ≤ m1 := by
    by_contra hc
    push_neg at hc
    have h2 : den * (m1 + 1) ≤ den * m0 := Nat.mul_le_mul_left den hc
    have h3 : den * (m1 + 1) = den * m1 + den := by ring
    omega
  rcases Nat.eq_or_lt_of_le hm with heq | hlt
  · subst heq
    have hrr : r ≤ r' := by omega
    repeat' split
    all_goals omega
  · repeat' split
    all_goals omega

theorem rhe_mono (num numB den : Nat) (hden : 0 < den) (h : num ≤ numB) :
    rhe num den ≤ rhe numB den := by
  have e1 := Nat.div_add_mod num den
  have e2 := Nat.div_add_mod numB den
  have hA := rhe_mono_aux den (num / den) (num % den) (numB / den) (numB % den) hden
    (Nat.mod_lt _ hden) (Nat.mod_lt _ hden) (by rw [e1, e2]; exact h)
  rw [e1, e2] at hA
  exact hA

theorem rhe_scale (num den : Nat) (hden : 0 < den) :
    rhe (2 * num) (2 * den) = rhe num den := by
  have e1 := Nat.div_add_mod num den
  have hr : num % den < den := Nat.mod_lt _ hden
  have hL : rhe (2 * num) (2 * den) =
      rhe ((2 * den) * (num / den) + 2 * (num % den)) (2 * den) := by
    congr 1
    calc 2 * num = 2 * (den * (num / den) + num % den) := by rw [e1]
      _ = (2 * den) * (num / den) + 2 * (num % den) := by ring
  rw [hL, rhe_eq (2 * den) (num / den) (2 * (num % den)) (by omega) (by omega)]
  conv_rhs => rw [← e1]
  rw [rhe_eq den (num / den) (num % den) hden hr]
  rcases lt_trichotomy (2 * (num % den)) den with hz | hz | hz
  · have c1 : 2 * (2 * (num % den)) < 2 * den := by omega
    rw [if_pos c1, if_pos hz]
  · have c1 : ¬ 2 * (2 * (num % den)) < 2 * den := by omega
    have c2 : ¬ 2 * den < 2 * (2 * (num % den)) := by omega
    have c3 : ¬ 2 * (num % den) < den := by omega
    have c4 : ¬ den < 2 * (num % den) := by omega
    rw [if_neg c1, if_neg c2, if_neg c3, if_neg c4]
  · have c1 : ¬ 2 * (2 * (num % den)) < 2 * den := by omega
    have c2 : 2 * den < 2 * (2 * (num % den)) := by omega
    have c3 : ¬ 2 * (num % den) < den := by omega
    have c4 : den < 2 * (num % den) := by omega
    rw [if_neg c1, if_pos c2, if_neg c3, if_pos c4]

theorem rhe_upper (M c k : Nat) (hc : 0 < c) (h : M < c * 2 ^ k) : rhe M c ≤ 2 ^ k := by
  have h1 := rhe_le M c
  have h2 : M / c < 2 ^ k := (Nat.div_lt_iff_lt_mul hc).mpr
    (by calc M < c * 2 ^ k := h
      _ = 2 ^ k * c := by ring)
  omega

theorem rhe_lower (M c k : Nat) (hc : 0 < c) (h : c * 2 ^ k ≤ M) : 2 ^ k ≤ rhe M c := by
  have h1 := rhe_ge M c
  have h2 : 2 ^ k ≤ M / c := (Nat.le_div_iff_mul_le hc).mpr
    (by calc 2 ^ k * c = c * 2 ^ k := by ring
      _ ≤ M := h)
  omega

theorem ilogShiftAux_le (t : Nat) : ∀ fuel cur, t ≤ cur * 2 ^ fuel →
    t ≤ cur * 2 ^ ilogShiftAux t fuel cur := by
  intro fuel
  induction fuel with
  | zero => intro cur h; simpa [ilogShiftAux] using h
  | succ f ih =>
      intro cur h
      unfold ilogShiftAux
      split
      · rename_i hc
        simpa using hc
      · have h2 : t ≤ 2 * cur * 2 ^ f := by
          calc t ≤ cur * 2 ^ (f + 1) := h
            _ = 2 * cur * 2 ^ f := by rw [pow_succ]; ring
        calc t ≤ 2 * cur * 2 ^ ilogShiftAux t f (2 * cur) := ih (2 * cur) h2
          _ = cur * 2 ^ (ilogShiftAux t f (2 * cur) + 1) := by rw [pow_succ]; ring

theorem ilogShiftAux_min (t : Nat) : ∀ fuel cur sB, t ≤ cur * 2 ^ sB →
    ilogShiftAux t fuel cur ≤ sB := by
  intro fuel
  induction fuel with
  | zero => intro cur sB _; exact Nat.zero_le _
  | succ f ih =>
      intro cur sB h
      unfold ilogShiftAux
      split
      · exact Nat.zero_le _
      · rename_i hc
        cases sB with
        | zero =>
            exfalso
            apply hc
            simpa using h
        | succ k =>
            have h2 : t ≤ 2 * cur * 2 ^ k := by
              calc t ≤ cur * 2 ^ (k + 1) := h
                _ = 2 * cur * 2 ^ k := by rw [pow_succ]; ring
            have h3 := ih (2 * cur) k h2
            omega

theorem ilogShift_spec (i t : Nat) (hi : 1 ≤ i) : t ≤ i * 2 ^ ilogShift i t := by
  unfold ilogShift
  apply ilogShiftAux_le
  calc t ≤ 2 ^ t := Nat.le_of_lt (Nat.lt_two_pow t)
    _ = 1 * 2 ^ t := (one_mul _).symm
    _ ≤ i * 2 ^ t := Nat.mul_le_mul_right _ hi

theorem ilogShift_min (i t sB : Nat) (h : t ≤ i * 2 ^ sB) : ilogShift i t ≤ sB :=
  ilogShiftAux_min t t i sB h

theorem ilogShift_anti (i iB t : Nat) (hi : 1 ≤ i) (h : i ≤ iB) :
    ilogShift iB t ≤ ilogShift i t := by
  apply ilogShift_min
  calc t ≤ i * 2 ^ ilogShift i t := ilogShift_spec i t hi
    _ ≤ iB * 2 ^ ilogShift i t := Nat.mul_le_mul_right _ h

theorem ilogShift_lowerB (i t : Nat) (hs : 1 ≤ ilogShift i t) :
    i * 2 ^ (ilogShift i t - 1) < t := by
  by_contra hc
  push_neg at hc
  have h2 := ilogShift_min i t _ hc
  omega

theorem m1_lower (i t : Nat) (hi : 1 ≤ i) (ht : 1 ≤ t) :
    2 ^ 52 ≤ rhe (i * 2 ^ (ilogShift i t + 52)) t := by
  refine le_trans ?_ (rhe_ge _ _)
  rw [Nat.le_div_iff_mul_le ht]
  calc 2 ^ 52 * t ≤ 2 ^ 52 * (i * 2 ^ ilogShift i t) :=
        Nat.mul_le_mul_left _ (ilogShift_spec i t hi)
    _ = i * 2 ^ (ilogShift i t + 52) := by rw [pow_add]; ring

theorem m1_upper (i t : Nat) (hi : 1 ≤ i) (hit : i ≤ t) :
    rhe (i * 2 ^ (ilogShift i t + 52)) t ≤ 2 ^ 53 := by
  have ht : 0 < t := lt_of_lt_of_le hi hit
  have h1 := rhe_le (i * 2 ^ (ilogShift i t + 52)) t
  rcases Nat.eq_zero_or_pos (ilogShift i t) with hs | hs
  · have h2 : i * 2 ^ (ilogShift i t + 52) / t ≤ 2 ^ 52 := by
      have hle : i * 2 ^ (ilogShift i t + 52) ≤ t * 2 ^ 52 := by
        rw [hs, Nat.zero_add]
        exact Nat.mul_le_mul_right _ hit
      calc i * 2 ^ (ilogShift i t + 52) / t ≤ t * 2 ^ 52 / t := Nat.div_le_div_right hle
        _ = 2 ^ 52 := Nat.mul_div_cancel_left _ ht
    have h3 : (2 : Nat) ^ 53 = 2 * 2 ^ 52 := by rw [pow_succ]; ring
    have h4 : 0 < (2 : Nat) ^ 52 := Nat.two_pow_pos 52
    omega
  · have hlow := ilogShift_lowerB i t hs
    have e : i * 2 ^ (ilogShift i t + 52) = (i * 2 ^ (ilogShift i t - 1)) * 2 ^ 53 := by
      rw [mul_assoc, ← pow_add]
      congr 2
      omega
    have hnum : i * 2 ^ (ilogShift i t + 52) < t * 2 ^ 53 := by
      rw [e]
      exact (Nat.mul_lt_mul_right (Nat.two_pow_pos 53)).mpr hlow
    have h2 : i * 2 ^ (ilogShift i t + 52) / t < 2 ^ 53 :=
      (Nat.div_lt_iff_lt_mul ht).mpr (by calc i * 2 ^ (ilogShift i t + 52) < t * 2 ^ 53 := hnum
        _ = 2 ^ 53 * t := by ring)
    omega

theorem stage1_cross (t i iB : Nat) (hi : 1 ≤ i) (hii : i ≤ iB) (hit : iB ≤ t) :
    rhe (i * 2 ^ (ilogShift i t + 52)) t * 2 ^ ilogShift iB t ≤
      rhe (iB * 2 ^ (ilogShift iB t + 52)) t * 2 ^ ilogShift i t := by
  have hiB : 1 ≤ iB := le_trans hi hii
  have ht : 1 ≤ t := le_trans hiB hit
  have hss : ilogShift iB t ≤ ilogShift i t := ilogShift_anti i iB t hi hii
  rcases Nat.eq_or_lt_of_le hss with he | hlt
  · rw [he]
    apply Nat.mul_le_mul_right
    exact rhe_mono _ _ t ht (Nat.mul_le_mul_right _ hii)
  · calc rhe (i * 2 ^ (ilogShift i t + 52)) t * 2 ^ ilogShift iB t
        ≤ 2 ^ 53 * 2 ^ ilogShift iB t :=
          Nat.mul_le_mul_right _ (m1_upper i t hi (le_trans hii hit))
      _ = 2 ^ (53 + ilogShift iB t) := by rw [← pow_add]
      _ ≤ 2 ^ (52 + ilogShift i t) := Nat.pow_le_pow_right (by omega) (by omega)
      _ = 2 ^ 52 * 2 ^ ilogShift i t := by rw [← pow_add]
      _ ≤ rhe (iB * 2 ^ (ilogShift iB t + 52)) t * 2 ^ ilogShift i t :=
          Nat.mul_le_mul_right _ (m1_lower iB t hiB ht)

theorem div_pow_cross (a b da db : Nat) (h : a * 2 ^ db ≤ b * 2 ^ da) :
    a / 2 ^ da ≤ b / 2 ^ db := by
  have h1 : a / 2 ^ da = a * 2 ^ db / (2 ^ da * 2 ^ db) := by
    rw [Nat.mul_div_mul_right _ _ (Nat.two_pow_pos db)]
  have h2 : b / 2 ^ db = b * 2 ^ da / (2 ^ da * 2 ^ db) := by
    rw [mul_comm (2 ^ da) (2 ^ db), Nat.mul_div_mul_right _ _ (Nat.two_pow_pos da)]
  rw [h1, h2]
  exact Nat.div_le_div_right h

theorem pow_cross (a b u v : Nat) (ha : a ≤ 2 ^ 53) (hb : 2 ^ 52 ≤ b)
    (huv : 53 + u ≤ 52 + v) : a * 2 ^ u ≤ b * 2 ^ v := by
  calc a * 2 ^ u ≤ 2 ^ 53 * 2 ^ u := Nat.mul_le_mul_right _ ha
    _ = 2 ^ (53 + u) := by rw [← pow_add]
    _ ≤ 2 ^ (52 + v) := Nat.pow_le_pow_right (by omega) huv
    _ = 2 ^ 52 * 2 ^ v := by rw [← pow_add]
    _ ≤ b * 2 ^ v := Nat.mul_le_mul_right _ hb

theorem pyProg_mono (i iB t : Nat) (hi : 1 ≤ i) (hii : i ≤ iB) (hit : iB ≤ t) :
    pyProg i t ≤ pyProg iB t := by
  have hiB : 1 ≤ iB := le_trans hi hii
  have ht : 1 ≤ t := le_trans hiB hit
  unfold pyProg
  dsimp only
  set s := ilogShift i t with hsdef
  set sB := ilogShift iB t with hsBdef
  set m1 := rhe (i * 2 ^ (s + 52)) t with hm1def
  set m1B := rhe (iB * 2 ^ (sB + 52)) t with hm1Bdef
  have hss : sB ≤ s := ilogShift_anti i iB t hi hii
  have hcross : m1 * 2 ^ sB ≤ m1B * 2 ^ s := stage1_cross t i iB hi hii hit
  have hub : m1 ≤ 2 ^ 53 := m1_upper i t hi (le_trans hii hit)
  have hubB : m1B ≤ 2 ^ 53 := m1_upper iB t hiB hit
  have hlb : 2 ^ 52 ≤ m1 := m1_lower i t hi ht
  have hlbB : 2 ^ 52 ≤ m1B := m1_lower iB t hiB ht
  have hM53 : 50 * m1 < 64 * 2 ^ 53 := by omega
  have hMB53 : 50 * m1B < 64 * 2 ^ 53 := by omega
  have hM57 : 32 * 2 ^ 52 ≤ 50 * m1 := by omega
  have hMB57 : 32 * 2 ^ 52 ≤ 50 * m1B := by omega
  have hp58 : (2 : Nat) ^ 58 = 32 * 2 ^ 53 := by norm_num
  have hp58B : (2 : Nat) ^ 58 = 64 * 2 ^ 52 := by norm_num
  by_cases hA : 50 * m1 < 2 ^ 58
  · rw [if_pos hA]
    by_cases hB : 50 * m1B < 2 ^ 58
    · rw [if_pos hB]
      apply div_pow_cross
      have hup : rhe (50 * m1) 32 ≤ 2 ^ 53 := rhe_upper _ 32 53 (by omega) (by omega)
      have hloB : 2 ^ 52 ≤ rhe (50 * m1B) 32 := rhe_lower _ 32 52 (by omega) (by omega)
      rcases Nat.eq_or_lt_of_le hss with he | hlt
      · rw [he]
        apply Nat.mul_le_mul_right
        apply rhe_mono _ _ 32 (by omega)
        have hmm : m1 ≤ m1B := by
          rw [he] at hcross
          exact Nat.le_of_mul_le_mul_right hcross (Nat.two_pow_pos s)
        omega
      · exact pow_cross _ _ (sB + 47) (s + 47) hup hloB (by omega)
    · rw [if_neg hB]
      apply div_pow_cross
      have hup : rhe (50 * m1) 32 ≤ 2 ^ 53 := rhe_upper _ 32 53 (by omega) (by omega)
      have hloB : 2 ^ 52 ≤ rhe (50 * m1B) 64 := rhe_lower _ 64 52 (by omega) (by omega)
      exact pow_cross _ _ (sB + 46) (s + 47) hup hloB (by omega)
  · rw [if_neg hA]
    have hA2 : 2 ^ 58 ≤ 50 * m1 := by omega
    by_cases hB : 50 * m1B < 2 ^ 58
    · rw [if_pos hB]
      apply div_pow_cross
      have hup : rhe (50 * m1) 64 ≤ 2 ^ 53 := rhe_upper _ 64 53 (by omega) (by omega)
      have hloB : 2 ^ 52 ≤ rhe (50 * m1B) 32 := rhe_lower _ 32 52 (by omega) (by omega)
      rcases Nat.eq_or_lt_of_le hss with he | hlt
      · exfalso
        rw [he] at hcross
        have hmm : m1 ≤ m1B := Nat.le_of_mul_le_mul_right hcross (Nat.two_pow_pos s)
        omega
      · rcases Nat.lt_or_ge s (sB + 2) with h2 | h2
        · have hseq : s + 46 = sB + 47 := by omega
          rw [hseq]
          apply Nat.mul_le_mul_right
          have hm2 : m1 ≤ 2 * m1B := by
            have h3 : m1 * 2 ^ sB ≤ (2 * m1B) * 2 ^ sB := by
              calc m1 * 2 ^ sB ≤ m1B * 2 ^ s := hcross
                _ = (2 * m1B) * 2 ^ sB := by
                    rw [show s = sB + 1 from by omega, pow_succ]
                    ring
            exact Nat.le_of_mul_le_mul_right h3 (Nat.two_pow_pos sB)
          have hsc : rhe (50 * m1B) 32 = rhe (2 * (50 * m1B)) 64 := by
            rw [show (64 : Nat) = 2 * 32 from rfl, rhe_scale _ 32 (by omega)]
          rw [hsc]
          exact rhe_mono _ _ 64 (by omega) (by omega)
        · exact pow_cross _ _ (sB + 47) (s + 46) hup hloB (by omega)
    · rw [if_neg hB]
      apply div_pow_cross
      have hup : rhe (50 * m1) 64 ≤ 2 ^ 53 := rhe_upper _ 64 53 (by omega) (by omega)
      have hloB : 2 ^ 52 ≤ rhe (50 * m1B) 64 := rhe_lower _ 64 52 (by omega) (by omega)
      rcases Nat.eq_or_lt_of_le hss with he | hlt
      · rw [he]
        apply Nat.mul_le_mul_right
        apply rhe_mono _ _ 64 (by omega)
        have hmm : m1 ≤ m1B := by
          rw [he] at hcross
          exact Nat.le_of_mul_le_mul_right hcross (Nat.two_pow_pos s)
        omega
      · exact pow_cross _ _ (sB + 46) (s + 46) hup hloB (by omega)

theorem pyProg_self (t : Nat) (ht : 1 ≤ t) : pyProg t t = 50 := by
  have hs : ilogShift t t = 0 := by
    unfold ilogShift
    rcases t with _ | n
    · simp at ht
    · unfold ilogShiftAux
      simp
  have hm1 : rhe (t * 2 ^ (0 + 52)) t = 2 ^ 52 := by
    rw [show t * 2 ^ (0 + 52) = t * 2 ^ 52 + 0 from by norm_num,
      rhe_eq t (2 ^ 52) 0 ht ht, if_pos (by omega)]
  unfold pyProg
  dsimp only
  rw [hs, hm1]
  decide

theorem chain'_mapRange (f : Nat → Nat) (n : Nat) (hf : ∀ k, k + 1 < n → f k ≤ f (k + 1)) :
    List.Chain' (fun a b => a ≤ b) ((List.range n).map f) := by
  cases n with
  | zero => simp
  | succ n2 =>
      rw [List.chain'_map]
      exact (List.chain'_range_succ _ n2).mpr (fun k hk => hf k (by omega))

theorem progressFormula_facts (n mm : Nat) (hn : n ≠ 0) (hm : mm ≠ 0) :
    List.Chain' (fun a b => a ≤ b)
      ((List.range n).map (fun k => pyProg (k + 1) n) ++
       (List.range mm).map (fun k => 50 + (k + 1) * 50 / mm)) ∧
    ((List.range n).map (fun k => pyProg (k + 1) n) ++
     (List.range mm).map (fun k => 50 + (k + 1) * 50 / mm)).getLast? = some 100 := by
  rcases Nat.exists_eq_succ_of_ne_zero hn with ⟨n2, rfl⟩
  rcases Nat.exists_eq_succ_of_ne_zero hm with ⟨m2, rfl⟩
  simp only [Nat.succ_eq_add_one]
  have hlastA : ((List.range (n2 + 1)).map (fun k => pyProg (k + 1) (n2 + 1))).getLast? =
      some (pyProg (n2 + 1) (n2 + 1)) := by
    rw [List.range_succ, List.map_append]
    simp [List.getLast?_concat]
  have h50 : pyProg (n2 + 1) (n2 + 1) = 50 := pyProg_self (n2 + 1) (Nat.succ_pos n2)
  have hlastB : ((List.range (m2 + 1)).map
      (fun k => 50 + (k + 1) * 50 / (m2 + 1))).getLast? =
      some (50 + (m2 + 1) * 50 / (m2 + 1)) := by
    rw [List.range_succ, List.map_append]
    simp [List.getLast?_concat]
  have h100 : 50 + (m2 + 1) * 50 / (m2 + 1) = 100 := by
    rw [Nat.mul_div_cancel_left 50 (Nat.succ_pos m2)]
  constructor
  · rw [List.chain'_append]
    refine ⟨chain'_mapRange _ _ (fun k hk =>
        pyProg_mono (k + 1) (k + 2) (n2 + 1) (by omega) (by omega) (by omega)),
      chain'_mapRange _ _ (fun k _ => by
        have : (k + 1) * 50 / (m2 + 1) ≤ (k + 1 + 1) * 50 / (m2 + 1) :=
          Nat.div_le_div_right (by omega)
        omega), ?_⟩
    intro x hx y hy
    rw [hlastA, h50] at hx
    rw [List.range_succ_eq_map, List.map_cons] at hy
    simp only [List.head?_cons, Option.mem_def, Option.some.injEq] at hx hy
    subst hx
    subst hy
    exact Nat.le_add_right 50 _
  · have hBne : ((List.range (m2 + 1)).map
        (fun k => 50 + (k + 1) * 50 / (m2 + 1))) ≠ [] := by
      simp
    rw [List.getLast?_append_of_ne_nil _ hBne, hlastB, h100]

/-- The C6 counterexample input: a one-entry archive and a one-rule
install map whose rule is missing both fields. -/
def c6Inp : RunInput :=
  { zipValid := true, archive := [(["b"], Node.file 420 false "x")], appName := "A",
    executableName := "e", iconPath := "i", metaTerminal := none, metaType := none,
    metaCategories := none, installMap := [⟨none, none⟩], homeDir := "/h" }

/-- C6 counterexample: a non-empty install map containing a rule with a
missing field.  The `continue` at line 197 of `setup.py` skips the
progress emission of line 259, so the mapping phase emits zero progress
events for the one rule, and the final emitted progress value is 50, not
100, although the run reports success.  This refutes the claim that every
rule of a non-empty install map produces exactly one mapping-phase
progress event and that the final value is 100 on success. -/
theorem c6_incomplete_rule_progress_counterexample :
    c6Inp.installMap.length = 1 ∧
    progressVals (installerRun allOkEnv (fun _ => true) true c6Inp []).2 = [50] ∧
    Event.finished true ∈ (installerRun allOkEnv (fun _ => true) true c6Inp []).2 := by
  decide

/-- C6 (amended): for every archive with at least one entry and every
non-empty install map all of whose rules have both fields, a successful
run emits one extraction progress value per entry — the IEEE-double value
`int((k+1)/total*50)` modelled exactly by `pyProg`, which can fall one
below the exact floor `(k+1)*50/total`, e.g. 28 instead of 29 for the
29th of 50 entries — followed by exactly one mapping progress value
`50+(k+1)*50/total_mappings` per rule; the sequence of progress values is
non-decreasing and its last value is 100. -/
theorem c6_progress_events (env : Env) (cok : Nat → Bool) (iok : Bool)
    (inp : RunInput) (fs : FS)
    (hzip : inp.zipValid = true)
    (hn : inp.archive ≠ [])
    (hm : inp.installMap ≠ [])
    (hall : inp.installMap.all ruleComplete = true)
    (hok : (runBody env inp fs).2.2 = true) :
    progressVals (installerRun env cok iok inp fs).2 =
      (List.range inp.archive.length).map (fun k => pyProg (k + 1) inp.archive.length) ++
      (List.range inp.installMap.length).map
        (fun k => 50 + (k + 1) * 50 / inp.installMap.length) ∧
    List.Chain' (fun a b => a ≤ b) (progressVals (installerRun env cok iok inp fs).2) ∧
    (progressVals (installerRun env cok iok inp fs).2).getLast? = some 100 ∧
    (pyProg 29 50 = 28 ∧ 29 * 50 / 50 = 29) := by
  have hmm : (inp.installMap.length == 0) = false := by
    cases hmp : inp.installMap with
    | nil => exact absurd hmp hm
    | cons a l => simp [hmp]
  have hbody := runBody_ok_progress env inp fs hzip hmm hall
  rcases hb : runBody env inp fs with ⟨fs1, evs, ok⟩
  rw [hb] at hbody hok
  have hevs := hbody hok
  have hmain : progressVals (installerRun env cok iok inp fs).2 =
      (List.range inp.archive.length).map (fun k => pyProg (k + 1) inp.archive.length) ++
      (List.range inp.installMap.length).map
        (fun k => 50 + (k + 1) * 50 / inp.installMap.length) := by
    have hrun : installerRun env cok iok inp fs =
        ((cleanupPhase cok iok inp.homeDir inp.appName fs1).1,
         evs ++ Event.finished ok :: (cleanupPhase cok iok inp.homeDir inp.appName fs1).2) := by
      unfold installerRun
      rw [hb]
    rw [hrun]
    dsimp only
    rw [progressVals_append]
    have hclean : progressVals (Event.finished ok ::
        (cleanupPhase cok iok inp.homeDir inp.appName fs1).2) = [] := by
      simp only [progressVals, List.filterMap_cons]
      exact allMsg_progressVals _
        (cleanupPhase_allMsg cok iok inp.homeDir inp.appName fs1)
    rw [hclean]
    dsimp only at hevs
    rw [List.append_nil]
    exact hevs
  have hfacts := progressFormula_facts inp.archive.length inp.installMap.length
    (by simpa using hn) (by simpa using hm)
  exact ⟨hmain, by rw [hmain]; exact hfacts.1, by rw [hmain]; exact hfacts.2,
    by decide, by decide⟩

/-- A concrete successful two-entry, two-rule run for the C6 witness. -/
def c6WInp : RunInput :=
  { zipValid := true,
    archive := [(["a"], Node.file 420 false "x"), (["b"], Node.file 420 false "y")],
    appName := "A", executableName := "e", iconPath := "i", metaTerminal := none,
    metaType := none, metaCategories := none,
    installMap := [⟨some "a", some "$HOME/p"⟩, ⟨some "b", some "$HOME/q"⟩],
    homeDir := "/h" }

theorem c6_progress_events_witness :
    progressVals (installerRun allOkEnv (fun _ => true) true c6WInp []).2 =
      (List.range c6WInp.archive.length).map
        (fun k => pyProg (k + 1) c6WInp.archive.length) ++
      (List.range c6WInp.installMap.length).map
        (fun k => 50 + (k + 1) * 50 / c6WInp.installMap.length) :=
  (c6_progress_events allOkEnv (fun _ => true) true c6WInp []
    rfl (by decide) (by decide) (by decide) (by decide)).1

/-! ## Claim C8 — the desktop registrar -/

theorem dropWhile_head_not (p : Char → Bool) (l : List Char) :
    ∀ c rest, l.dropWhile p = c :: rest → p c = false := by
  induction l with
  | nil => intro c rest h; simp at h
  | cons x xs ih =>
      intro c rest h
      rw [List.dropWhile_cons] at h
      split at h
      · exact ih c rest h
      · rename_i hx
        cases h
        simpa using hx

theorem headIsSlash_lstrip (s : String) : headIsSlash (lstripDotSlash s) = false := by
  unfold headIsSlash lstripDotSlash
  show ((String.mk (s.toList.dropWhile (fun c => c == '.' || c == '/'))).data.head? ==
    some '/') = false
  cases h : s.toList.dropWhile (fun c => c == '.' || c == '/') with
  | nil => rfl
  | cons c rest =>
      have hc := dropWhile_head_not (fun c => c == '.' || c == '/') s.toList c rest h
      simp only [Bool.or_eq_false_iff] at hc
      simp [hc.2]

theorem toList_append (a b : String) : (a ++ b).toList = a.toList ++ b.toList := by
  show (a ++ b).data = a.data ++ b.data
  exact String.data_append a b

theorem strStarts_append (a t : String) : strStarts (a ++ t) a = true := by
  unfold strStarts
  rw [toList_append, List.take_left]
  simp

theorem strStarts_joinPath (a b : String) (hb : headIsSlash b = false) :
    strStarts (joinPath a b) a = true := by
  unfold joinPath
  rw [hb]
  simp only [Bool.false_eq_true, if_false]
  split
  · exact strStarts_append a b
  · rw [String.append_assoc]
    exact strStarts_append a ("/" ++ b)

theorem lookup_foldl_addDir_none_or_dir (l : List Path) :
    ∀ fs p, (lookupFS fs p = none ∨ lookupFS fs p = some Node.dir) →
      lookupFS (l.foldl addDirIfMissing fs) p = none ∨
      lookupFS (l.foldl addDirIfMissing fs) p = some Node.dir := by
  induction l with
  | nil => intro fs p h; exact h
  | cons q rest ih =>
      intro fs p h
      simp only [List.foldl_cons]
      apply ih
      unfold addDirIfMissing
      split
      · exact h
      · by_cases hq : q = p
        · subst hq
          right
          rw [lookupFS, if_pos rfl]
        · rw [lookupFS, if_neg (by simpa using hq)]
          exact h

theorem isFile_makedirsAll (fs : FS) (q p : Path) :
    isFileFS (makedirsAll fs q) p = isFileFS fs p := by
  cases h : lookupFS fs p with
  | some n =>
      have h2 := lookup_makedirsAll_some fs q p n h
      simp [isFileFS, h, h2]
  | none =>
      have h2 := lookup_foldl_addDir_none_or_dir (initSegs q) fs p (Or.inl h)
      unfold makedirsAll
      rcases h2 with h2 | h2 <;> simp [isFileFS, h, h2]

theorem string_append_ne_empty (a b : String) (hb : b ≠ "") : a ++ b ≠ "" := by
  intro h
  apply hb
  have h2 : (a ++ b).data = ("" : String).data := by rw [h]
  rw [String.data_append] at h2
  have h3 := List.append_eq_nil.mp h2
  apply String.ext
  exact h3.2

theorem joinPath_ne_empty (a b : String) (hb : b ≠ "") (hbs : headIsSlash b = false) :
    joinPath a b ≠ "" := by
  unfold joinPath
  rw [hbs]
  simp only [Bool.false_eq_true, if_false]
  split
  · exact string_append_ne_empty a b hb
  · exact string_append_ne_empty (a ++ "/") b hb

theorem appsDirStr_ne_empty (home : String) : appsDirStr home ≠ "" := by
  unfold appsDirStr
  exact joinPath_ne_empty _ "applications" (by decide) (by decide)

theorem lookup_writeFile_self (fs : FS) (p : Path) (c : String) :
    lookupFS (writeFileFS fs p c) p =
      some (Node.file ((getFileMode fs p).getD 420) false c) := by
  unfold writeFileFS
  cases h : getFileMode fs p with
  | some m => rw [lookupFS, if_pos rfl]; simp [h]
  | none => rw [lookupFS, if_pos rfl]; simp [h]

theorem or64_and64 (m : Nat) : (m ||| 64) &&& 64 = 64 := by
  apply Nat.eq_of_testBit_eq
  intro j
  simp only [Nat.testBit_and, Nat.testBit_or, testBit64]
  by_cases hj : j = 6 <;> simp [hj] <;> tauto

/-- C8: the Desktop Registrar resolves the home-relative executable and
icon paths to absolute paths under the home directory; when the resolved
executable is not an existing regular file the descriptor's `Exec` field
is written empty and a warning is emitted (same for `Icon`), this is
non-fatal, and the descriptor file is still written to the user-level
application directory under the lower-cased space-stripped name and
marked executable (its mode includes the user-execute bit). -/
theorem c8_desktop_registrar (env : Env) (home appName execName iconPath : String)
    (mTerm mType mCats : Option String) (fs : FS)
    (hw : env.desktopWriteFails = false)
    (hmk : (makedirsStrExc fs (appsDirStr home)).isOk = true)
    (hexec : isFileFS fs (parsePath (joinPath home (lstripDotSlash execName))) = false)
    (hicon : isFileFS fs (parsePath (joinPath home (lstripDotSlash iconPath))) = false) :
    (createDesktopEntry env home appName execName iconPath mTerm mType mCats fs).2.2
      = true ∧
    strStarts (joinPath home (lstripDotSlash execName)) home = true ∧
    strStarts (joinPath home (lstripDotSlash iconPath)) home = true ∧
    Event.message ("Heads up: Cant find " ++ execName ++ " at " ++
        joinPath home (lstripDotSlash execName)) ∈
      (createDesktopEntry env home appName execName iconPath mTerm mType mCats fs).2.1 ∧
    Event.message ("Yo, the icon " ++ iconPath ++ " aint at " ++
        joinPath home (lstripDotSlash iconPath)) ∈
      (createDesktopEntry env home appName execName iconPath mTerm mType mCats fs).2.1 ∧
    ∃ mo, lookupFS (createDesktopEntry env home appName execName iconPath
          mTerm mType mCats fs).1
        (parsePath (joinPath (appsDirStr home) (normName appName ++ ".desktop"))) =
      some (Node.file mo false (renderDesktop appName (appName ++ " Application") "" ""
        (lowerStr (mTerm.getD "False")) (mType.getD "Application")
        (mCats.getD "Utility;"))) ∧
      mo &&& 64 = 64 := by
  have hmkeq := makedirsStrExc_ok_val fs (appsDirStr home) hmk
  have hexec1 : isFileFS (makedirsAll fs (parsePath (appsDirStr home)))
      (parsePath (joinPath home (lstripDotSlash execName))) = false := by
    rw [isFile_makedirsAll]
    exact hexec
  have hicon1 : isFileFS (makedirsAll fs (parsePath (appsDirStr home)))
      (parsePath (joinPath home (lstripDotSlash iconPath))) = false := by
    rw [isFile_makedirsAll]
    exact hicon
  have hres : createDesktopEntry env home appName execName iconPath mTerm mType mCats fs =
      (chmodFS (writeFileFS (makedirsAll fs (parsePath (appsDirStr home)))
          (parsePath (joinPath (appsDirStr home) (normName appName ++ ".desktop")))
          (renderDesktop appName (appName ++ " Application") "" ""
            (lowerStr (mTerm.getD "False")) (mType.getD "Application")
            (mCats.getD "Utility;")))
        (parsePath (joinPath (appsDirStr home) (normName appName ++ ".desktop")))
        (((getFileMode (writeFileFS (makedirsAll fs (parsePath (appsDirStr home)))
            (parsePath (joinPath (appsDirStr home) (normName appName ++ ".desktop")))
            (renderDesktop appName (appName ++ " Application") "" ""
              (lowerStr (mTerm.getD "False")) (mType.getD "Application")
              (mCats.getD "Utility;")))
          (parsePath (joinPath (appsDirStr home) (normName appName ++ ".desktop")))).getD 420)
          ||| 64),
       [Event.message ("Heads up: Cant find " ++ execName ++ " at " ++
          joinPath home (lstripDotSlash execName)),
        Event.message ("Yo, the icon " ++ iconPath ++ " aint at " ++
          joinPath home (lstripDotSlash iconPath)),
        Event.message ("Whippin up desktop entry: " ++
          joinPath (appsDirStr home) (normName appName ++ ".desktop"))], true) := by
    unfold createDesktopEntry
    rw [hmkeq]
    dsimp only
    rw [hexec1, hicon1, hw]
    simp only [Bool.false_eq_true, if_false]
    rfl
  rw [hres]
  refine ⟨rfl, strStarts_joinPath home (lstripDotSlash execName) (headIsSlash_lstrip _),
    strStarts_joinPath home (lstripDotSlash iconPath) (headIsSlash_lstrip _),
    by simp, by simp, ?_⟩
  refine ⟨((getFileMode (writeFileFS (makedirsAll fs (parsePath (appsDirStr home)))
      (parsePath (joinPath (appsDirStr home) (normName appName ++ ".desktop")))
      (renderDesktop appName (appName ++ " Application") "" ""
        (lowerStr (mTerm.getD "False")) (mType.getD "Application")
        (mCats.getD "Utility;")))
      (parsePath (joinPath (appsDirStr home) (normName appName ++ ".desktop")))).getD 420)
      ||| 64, ?_, or64_and64 _⟩
  rw [lookupFS_chmod_self, lookup_writeFile_self]
  rfl

/-- The filesystem of the C8 witness: a home directory with no executable
or icon present. -/
def c8FS : FS := [(["h"], Node.dir)]

theorem c8_desktop_registrar_witness :
    (createDesktopEntry allOkEnv "/h" "My App" ".app/MyApp/run" ".app/MyApp/icon.png"
      none none none c8FS).2.2 = true ∧
    Event.message ("Heads up: Cant find .app/MyApp/run at " ++
        joinPath "/h" (lstripDotSlash ".app/MyApp/run")) ∈
      (createDesktopEntry allOkEnv "/h" "My App" ".app/MyApp/run" ".app/MyApp/icon.png"
        none none none c8FS).2.1 :=
  ⟨(c8_desktop_registrar allOkEnv "/h" "My App" ".app/MyApp/run" ".app/MyApp/icon.png"
      none none none c8FS rfl (by decide) (by decide) (by decide)).1,
   (c8_desktop_registrar allOkEnv "/h" "My App" ".app/MyApp/run" ".app/MyApp/icon.png"
      none none none c8FS rfl (by decide) (by decide) (by decide)).2.2.2.1⟩

/-! ## Path and lookup lemmas for the fallback analysis (Claim C2) -/

theorem lookupFS_append (l1 l2 : FS) (p : Path) :
    lookupFS (l1 ++ l2) p =
      match lookupFS l1 p with
      | some n => some n
      | none => lookupFS l2 p := by
  induction l1 with
  | nil => rfl
  | cons e rest ih =>
      by_cases h : e.1 = p
      · simp [lookupFS, h]
      · simp only [List.cons_append, lookupFS, if_neg h]
        exact ih

theorem lookup_removePath_ne (fs : FS) (q p : Path) (h : q ≠ p) :
    lookupFS (removePathFS fs q) p = lookupFS fs p := by
  induction fs with
  | nil => rfl
  | cons e rest ih =>
      simp only [removePathFS, List.filter_cons]
      split
      · rw [lookupFS, lookupFS]
        by_cases he : e.1 = p
        · rw [if_pos he, if_pos he]
        · rw [if_neg he, if_neg he]
          simpa [removePathFS] using ih
      · rename_i hk
        have hne : e.1 ≠ p := by
          intro heq
          subst heq
          simp at hk
          exact h hk.symm
        rw [lookupFS, if_neg hne]
        simpa [removePathFS] using ih

theorem lookup_addDirIfMissing_ne (fs : FS) (q p : Path) (h : q ≠ p) :
    lookupFS (addDirIfMissing fs q) p = lookupFS fs p := by
  unfold addDirIfMissing
  split
  · rfl
  · rw [lookupFS, if_neg h]

theorem lookup_foldl_addDir_not_mem (l : List Path) :
    ∀ fs p, (∀ r ∈ l, r ≠ p) →
      lookupFS (l.foldl addDirIfMissing fs) p = lookupFS fs p := by
  induction l with
  | nil => intro fs p _; rfl
  | cons q rest ih =>
      intro fs p h
      simp only [List.foldl_cons]
      rw [ih _ p (fun r hr => h r (List.mem_cons_of_mem q hr)),
        lookup_addDirIfMissing_ne fs q p (h q (List.mem_cons_self q rest))]

theorem lookup_makedirsAll_not_seg (fs : FS) (q p : Path)
    (h : ∀ r ∈ initSegs q, r ≠ p) :
    lookupFS (makedirsAll fs q) p = lookupFS fs p :=
  lookup_foldl_addDir_not_mem (initSegs q) fs p h

theorem isUnder_append (a q : Path) (hq : q ≠ []) : isUnder a (a ++ q) = true := by
  induction a with
  | nil =>
      cases q with
      | nil => exact absurd rfl hq
      | cons x xs => rfl
  | cons c cs ih => simp [isUnder, ih]

theorem inTree_append (a q : Path) : inTree a (a ++ q) = true := by
  cases hq : q with
  | nil => simp [inTree]
  | cons x xs =>
      unfold inTree
      rw [isUnder_append a (x :: xs) (by simp)]
      simp

theorem isUnder_decomp (a : Path) : ∀ p, isUnder a p = true → p = a ++ p.drop a.length := by
  induction a with
  | nil => intro p _; rfl
  | cons c cs ih =>
      intro p h
      cases p with
      | nil => simp [isUnder] at h
      | cons y ys =>
          simp only [isUnder, Bool.and_eq_true, beq_iff_eq] at h
          rcases h with ⟨rfl, h2⟩
          have h3 := ih ys h2
          simp only [List.cons_append, List.length_cons, List.drop_succ_cons]
          rw [← h3]

theorem initSegs_mem (r p : Path) (h : r ∈ initSegs p) : ∃ k, r = p.take (k + 1) := by
  simp only [initSegs, List.mem_map, List.mem_range] at h
  rcases h with ⟨k, _, rfl⟩
  exact ⟨k, rfl⟩

theorem take_append_cases (a x : Path) (k : Nat) :
    ((a ++ x).take k).length ≤ a.length ∨ ∃ y, (a ++ x).take k = a ++ y := by
  induction a generalizing k with
  | nil => exact Or.inr ⟨x.take k, rfl⟩
  | cons c cs ih =>
      cases k with
      | zero => exact Or.inl (by simp)
      | succ k2 =>
          rcases ih k2 with h | ⟨y, hy⟩
          · left
            simp only [List.cons_append, List.take_succ_cons, List.length_cons]
            omega
          · right
            refine ⟨y, ?_⟩
            simp only [List.cons_append, List.take_succ_cons, hy]

theorem lookup_mapped_subtree (src dst : Path) (q : Path) (hq : q ≠ []) :
    ∀ fs : FS,
      lookupFS ((subtreeEntriesFS fs src).map (fun e => (dst ++ e.1, e.2))) (dst ++ q) =
        lookupFS fs (src ++ q) := by
  intro fs
  induction fs with
  | nil => rfl
  | cons e rest ih =>
      simp only [subtreeEntriesFS, List.filterMap_cons]
      split
      · rename_i hu
        have hu2 : isUnder src e.1 = false := by
          by_cases h : isUnder src e.1 = true
          · simp [h] at hu
          · simpa using h
        have hne : e.1 ≠ src ++ q := by
          intro heq
          rw [heq, isUnder_append src q hq] at hu2
          simp at hu2
        rw [lookupFS, if_neg hne]
        simpa [subtreeEntriesFS] using ih
      · rename_i b hb
        have hu : isUnder src e.1 = true := by
          by_cases h : isUnder src e.1 = true
          · exact h
          · simp [h] at hb
        rw [if_pos hu] at hb
        cases hb
        have hdec := isUnder_decomp src e.1 hu
        simp only [List.map_cons, lookupFS]
        by_cases hcond : e.1 = src ++ q
        · have hdrop : e.1.drop src.length = q := by
            conv_lhs => rw [hcond]
            rw [List.drop_left]
          rw [if_pos (by rw [hdrop]), if_pos hcond]
        · have hdrop : dst ++ e.1.drop src.length ≠ dst ++ q := by
            intro h2
            have h3 := List.append_cancel_left h2
            apply hcond
            rw [hdec, h3]
          rw [if_neg hdrop, if_neg hcond]
          simpa [subtreeEntriesFS] using ih

theorem lookup_copytree_ok (fs : FS) (src dst : Path) (fs3 : FS)
    (h : copytreeFS fs src dst = Except.ok fs3) (q : Path) (hq : q ≠ [])
    (hseg : ∀ r ∈ initSegs dst, r ≠ dst ++ q) :
    lookupFS fs3 (dst ++ q) =
      match lookupFS fs (src ++ q) with
      | some n => some n
      | none => lookupFS fs (dst ++ q) := by
  unfold copytreeFS at h
  split at h
  · cases h
  · split at h
    · cases h
    · cases h
      rw [lookupFS_append, lookup_mapped_subtree src dst q hq fs,
        lookup_makedirsAll_not_seg fs dst (dst ++ q) hseg]

theorem extractEntry_preserve (fs : FS) (tempP : Path) (e : Path × Node) (p : Path)
    (hnt : inTree tempP p = false) (hlen : tempP.length < p.length) :
    lookupFS (extractEntry fs tempP e) p = lookupFS fs p := by
  unfold extractEntry
  have hfull : tempP ++ e.1 ≠ p := by
    intro heq
    rw [← heq, inTree_append] at hnt
    simp at hnt
  rw [lookupFS, if_neg hfull, lookup_removePath_ne _ _ _ hfull]
  apply lookup_makedirsAll_not_seg
  intro r hr heq
  rcases initSegs_mem r _ hr with ⟨k, hk⟩
  have hk2 : ∃ k2, r = (tempP ++ e.1).take k2 := by
    refine ⟨min (k + 1) ((tempP ++ e.1).length - 1), ?_⟩
    rw [hk, List.dropLast_eq_take, List.take_take]
  rcases hk2 with ⟨k2, hk2⟩
  rcases take_append_cases tempP e.1 k2 with hle | ⟨y, hy⟩
  · rw [← hk2] at hle
    rw [heq] at hle
    omega
  · rw [hk2, hy] at heq
    rw [← heq, inTree_append] at hnt
    simp at hnt

theorem extract_preserve (env : Env) (tempP : Path) (total : Nat) (p : Path)
    (hnt : inTree tempP p = false) (hlen : tempP.length < p.length) :
    ∀ i l fs, lookupFS (extractPhase env tempP total i l fs).1 p = lookupFS fs p := by
  intro i l
  induction l generalizing i with
  | nil => intro fs; rfl
  | cons e rest ih =>
      intro fs
      simp only [extractPhase]
      split
      · rfl
      · rcases hrec : extractPhase env tempP total (i + 1) rest (extractEntry fs tempP e) with
          ⟨fs2, evs, ok⟩
        have h2 := ih (i + 1) (extractEntry fs tempP e)
        rw [hrec] at h2
        dsimp only
        rw [h2, extractEntry_preserve fs tempP e p hnt hlen]

theorem extractEntry_preserve_some (fs : FS) (tempP : Path) (e : Path × Node) (p : Path)
    (n : Node) (hp : lookupFS fs p = some n) (hne : tempP ++ e.1 ≠ p) :
    lookupFS (extractEntry fs tempP e) p = some n := by
  unfold extractEntry
  rw [lookupFS, if_neg hne, lookup_removePath_ne _ _ _ hne]
  exact lookup_makedirsAll_some _ _ _ _ hp

theorem extract_preserve_some (env : Env) (tempP : Path) (total : Nat) :
    ∀ i (l : List (Path × Node)) fs p n, lookupFS fs p = some n →
      (∀ e ∈ l, tempP ++ e.1 ≠ p) →
      lookupFS (extractPhase env tempP total i l fs).1 p = some n := by
  intro i l
  induction l generalizing i with
  | nil => intro fs p n hp _; exact hp
  | cons e rest ih =>
      intro fs p n hp hne
      simp only [extractPhase]
      split
      · exact hp
      · rcases hrec : extractPhase env tempP total (i + 1) rest (extractEntry fs tempP e) with
          ⟨fs2, evs, ok⟩
        have h2 := ih (i + 1) (extractEntry fs tempP e) p n
          (extractEntry_preserve_some fs tempP e p n hp
            (hne e (List.mem_cons_self e rest)))
          (fun e2 he2 => hne e2 (List.mem_cons_of_mem e he2))
        rw [hrec] at h2
        exact h2

theorem extract_lookup_mem (env : Env) (tempP : Path) (total : Nat) :
    ∀ i (l : List (Path × Node)) fs rel n,
      (extractPhase env tempP total i l fs).2.2 = true →
      (rel, n) ∈ l → (l.map Prod.fst).Nodup →
      lookupFS (extractPhase env tempP total i l fs).1 (tempP ++ rel) = some n := by
  intro i l
  induction l generalizing i with
  | nil => intro fs rel n _ hmem; simp at hmem
  | cons e rest ih =>
      intro fs rel n hok hmem hnod
      simp only [extractPhase] at hok ⊢
      split
      · rename_i hf
        rw [if_pos hf] at hok
        simp at hok
      · rename_i hf
        rw [if_neg hf] at hok
        rcases hrec : extractPhase env tempP total (i + 1) rest (extractEntry fs tempP e) with
          ⟨fs2, evs, ok⟩
        rw [hrec] at hok
        dsimp only at hok ⊢
        simp only [List.map_cons, List.nodup_cons] at hnod
        rcases List.mem_cons.mp hmem with he | ht
        · cases he
          have hw : lookupFS (extractEntry fs tempP (rel, n)) (tempP ++ rel) = some n := by
            unfold extractEntry
            rw [lookupFS, if_pos rfl]
          have hne : ∀ e2 ∈ rest, tempP ++ e2.1 ≠ tempP ++ rel := by
            intro e2 he2 heq
            have h3 := List.append_cancel_left heq
            apply hnod.1
            rw [← h3]
            exact List.mem_map.mpr ⟨e2, he2, rfl⟩
          have hpres := extract_preserve_some env tempP total (i + 1) rest
            (extractEntry fs tempP (rel, n)) (tempP ++ rel) n hw hne
          rw [hrec] at hpres
          exact hpres
        · have h4 := ih (i + 1) (extractEntry fs tempP e) rel n
            (by rw [hrec]; exact hok) ht hnod.2
          rw [hrec] at h4
          exact h4

theorem cleanupRetry_fs_cases (cok : Nat → Bool) (tS : String) (tP : Path) :
    ∀ a r fs, (cleanupRetry cok tS tP a r fs).1 = fs ∨
      (cleanupRetry cok tS tP a r fs).1 = rmtreeFS fs tP := by
  intro a r
  induction r generalizing a with
  | zero => intro fs; exact Or.inl rfl
  | succ r ih =>
      intro fs
      simp only [cleanupRetry]
      split
      · exact Or.inr rfl
      · split
        · exact Or.inl rfl
        · rcases hrec : cleanupRetry cok tS tP (a + 1) r fs with ⟨fs1, evs⟩
          have h2 := ih (a + 1) fs
          rw [hrec] at h2
          exact h2

theorem cleanup_preserve (cok : Nat → Bool) (iok : Bool) (home appName : String)
    (fs : FS) (p : Path)
    (h1 : inTree (parsePath (joinPath home (tempDirName appName))) p = false)
    (h2 : inTree (parsePath (joinPath home (iconDirName appName))) p = false) :
    lookupFS (cleanupPhase cok iok home appName fs).1 p = lookupFS fs p := by
  unfold cleanupPhase
  dsimp only
  set pA := (if existsFS fs (parsePath (joinPath home (tempDirName appName))) = true
      then cleanupRetry cok (joinPath home (tempDirName appName))
        (parsePath (joinPath home (tempDirName appName))) 0 5 fs
      else (fs, [])) with hpA
  have hAl : lookupFS pA.1 p = lookupFS fs p := by
    rw [hpA]
    split
    · rcases cleanupRetry_fs_cases cok (joinPath home (tempDirName appName))
        (parsePath (joinPath home (tempDirName appName))) 0 5 fs with hc | hc
      · rw [hc]
      · rw [hc]
        exact lookup_rmtree_not_inTree fs _ p h1
    · rfl
  split
  · split
    · dsimp only
      rw [lookup_rmtree_not_inTree pA.1 _ p h2]
      exact hAl
    · exact hAl
  · exact hAl

theorem lookup_writeFile_ne (fs : FS) (q p : Path) (c : String) (h : q ≠ p) :
    lookupFS (writeFileFS fs q c) p = lookupFS fs p := by
  unfold writeFileFS
  cases getFileMode fs q <;>
    (rw [lookupFS, if_neg h]; exact lookup_removePath_ne fs q p h)

theorem desktop_preserve (env : Env) (home appName exec icon : String)
    (mT mTy mC : Option String) (fs : FS) (p : Path)
    (h1 : ∀ r ∈ initSegs (parsePath (appsDirStr home)), r ≠ p)
    (h2 : parsePath (joinPath (appsDirStr home) (normName appName ++ ".desktop")) ≠ p) :
    lookupFS (createDesktopEntry env home appName exec icon mT mTy mC fs).1 p =
      lookupFS fs p := by
  unfold createDesktopEntry
  split
  · rfl
  · rename_i fs1 hmk
    have hfs1 : fs1 = makedirsAll fs (parsePath (appsDirStr home)) := by
      unfold makedirsStrExc at hmk
      split at hmk
      · cases hmk
      · split at hmk
        · cases hmk
        · cases hmk
          rfl
    dsimp only
    split
    · rw [hfs1]
      exact lookup_makedirsAll_not_seg fs _ p h1
    · rw [lookupFS_chmod_ne _ p _ _ h2, lookup_writeFile_ne _ _ p _ h2, hfs1]
      exact lookup_makedirsAll_not_seg fs _ p h1

/-- The staged filesystem: the state reached after clearing a stale
staging directory, recreating it and extracting the whole archive into it
(the value of `fs1`..`fs2` in `runBody` on the non-fatal path). -/
def stagedFS (env : Env) (inp : RunInput) (fs : FS) : FS :=
  (extractPhase env (parsePath (joinPath inp.homeDir (tempDirName inp.appName)))
    inp.archive.length 0 inp.archive
    (makedirsAll
      (if existsFS fs (parsePath (joinPath inp.homeDir (tempDirName inp.appName))) = true
       then rmtreeFS fs (parsePath (joinPath inp.homeDir (tempDirName inp.appName)))
       else fs)
      (parsePath (joinPath inp.homeDir (tempDirName inp.appName))))).1

theorem fallback_spec (env : Env) (home appName tempS ex ic : String) (fs2 : FS)
    (fs3 : FS) (evsF : List Event) (okF : Bool) (ex2 ic2 : String)
    (heq : fallbackPhase env home appName tempS ex ic fs2 = (fs3, evsF, okF, ex2, ic2))
    (hok : okF = true) :
    ∃ fsr,
      ((fsr = fs2 ∧ existsFS fs2
          (parsePath (joinPath (joinPath home ".app") appName)) = false) ∨
        fsr = rmtreeFS fs2 (parsePath (joinPath (joinPath home ".app") appName))) ∧
      copytreeFS fsr (parsePath tempS)
        (parsePath (joinPath (joinPath home ".app") appName)) = Except.ok fs3 := by
  subst hok
  unfold fallbackPhase at heq
  dsimp only at heq
  by_cases hex : existsFS fs2 (parsePath (joinPath (joinPath home ".app") appName)) = true
  · rw [if_pos hex] at heq
    by_cases hf : env.fallbackRemoveFails = true
    · rw [if_pos hf] at heq
      dsimp only at heq
      cases heq
    · rw [if_neg hf] at heq
      dsimp only at heq
      refine ⟨rmtreeFS fs2 (parsePath (joinPath (joinPath home ".app") appName)),
        Or.inr rfl, ?_⟩
      rcases hct : copytreeFS (rmtreeFS fs2
          (parsePath (joinPath (joinPath home ".app") appName))) (parsePath tempS)
          (parsePath (joinPath (joinPath home ".app") appName)) with _ | fsc
      · rw [hct] at heq
        cases heq
      · rw [hct] at heq
        cases heq
        rfl
  · rw [if_neg hex] at heq
    dsimp only at heq
    refine ⟨fs2, Or.inl ⟨rfl, by simpa using hex⟩, ?_⟩
    rcases hct : copytreeFS fs2 (parsePath tempS)
        (parsePath (joinPath (joinPath home ".app") appName)) with _ | fsc
    · rw [hct] at heq
      cases heq
    · rw [hct] at heq
      cases heq
      rfl

theorem runBody_fallback_spec (env : Env) (inp : RunInput) (fs : FS)
    (hmap : inp.installMap = []) (hzip : inp.zipValid = true) :
    (runBody env inp fs).2.2 = true →
    (extractPhase env (parsePath (joinPath inp.homeDir (tempDirName inp.appName)))
      inp.archive.length 0 inp.archive
      (makedirsAll
        (if existsFS fs (parsePath (joinPath inp.homeDir (tempDirName inp.appName))) = true
         then rmtreeFS fs (parsePath (joinPath inp.homeDir (tempDirName inp.appName)))
         else fs)
        (parsePath (joinPath inp.homeDir (tempDirName inp.appName))))).2.2 = true ∧
    ∃ fsr fs3 ex2 ic2,
      ((fsr = stagedFS env inp fs ∧
          existsFS (stagedFS env inp fs)
            (parsePath (joinPath (joinPath inp.homeDir ".app") inp.appName)) = false) ∨
        fsr = rmtreeFS (stagedFS env inp fs)
          (parsePath (joinPath (joinPath inp.homeDir ".app") inp.appName))) ∧
      copytreeFS fsr (parsePath (joinPath inp.homeDir (tempDirName inp.appName)))
        (parsePath (joinPath (joinPath inp.homeDir ".app") inp.appName)) = Except.ok fs3 ∧
      (runBody env inp fs).1 =
        (createDesktopEntry env inp.homeDir inp.appName ex2 ic2
          inp.metaTerminal inp.metaType inp.metaCategories fs3).1 := by
  unfold runBody
  rw [if_neg (by simp [hzip])]
  dsimp only
  split
  · intro h
    simp at h
  · rename_i fs1 hmk
    have hfs1 : fs1 = makedirsAll
        (if existsFS fs (parsePath (joinPath inp.homeDir (tempDirName inp.appName))) = true
         then rmtreeFS fs (parsePath (joinPath inp.homeDir (tempDirName inp.appName)))
         else fs)
        (parsePath (joinPath inp.homeDir (tempDirName inp.appName))) := by
      have h2 := makedirsStrExc_ok_val _ _ (by rw [hmk]; rfl)
      rw [hmk] at h2
      exact Except.ok.inj h2
    rw [← hfs1]
    rcases hex : extractPhase env
        (parsePath (joinPath inp.homeDir (tempDirName inp.appName)))
        inp.archive.length 0 inp.archive fs1 with ⟨fs2, evsE, okE⟩
    dsimp only
    cases okE with
    | false =>
        intro h
        simp at h
    | true =>
        simp only [Bool.not_true, Bool.false_eq_true, if_false]
        have hcond : (inp.installMap.length == 0) = true := by rw [hmap]; rfl
        rw [if_pos hcond]
        rcases hfb : fallbackPhase env inp.homeDir inp.appName
            (joinPath inp.homeDir (tempDirName inp.appName)) inp.executableName
            inp.iconPath fs2 with ⟨fs3, evsF, okF, ex2, ic2⟩
        dsimp only
        cases okF with
        | false =>
            intro h
            simp at h
        | true =>
            simp only [Bool.not_true, Bool.false_eq_true, if_false]
            rcases hde : createDesktopEntry env inp.homeDir inp.appName ex2 ic2
                inp.metaTerminal inp.metaType inp.metaCategories fs3 with ⟨fs4, evsD, okD⟩
            dsimp only
            cases okD with
            | false =>
                intro h
                simp at h
            | true =>
                intro _
                refine ⟨by simp, ?_⟩
                obtain ⟨fsr, hfsr, hcopy⟩ := fallback_spec env inp.homeDir inp.appName
                  (joinPath inp.homeDir (tempDirName inp.appName)) inp.executableName
                  inp.iconPath fs2 fs3 evsF true ex2 ic2 hfb rfl
                have hfs2 : fs2 = stagedFS env inp fs := by
                  unfold stagedFS
                  rw [← hfs1, hex]
                refine ⟨fsr, fs3, ex2, ic2, ?_, hcopy, ?_⟩
                · rw [← hfs2]
                  exact hfsr
                · rw [hde]
                  rfl

theorem installerRun_fst (env : Env) (cok : Nat → Bool) (iok : Bool) (inp : RunInput)
    (fs : FS) :
    (installerRun env cok iok inp fs).1 =
      (cleanupPhase cok iok inp.homeDir inp.appName (runBody env inp fs).1).1 := by
  unfold installerRun
  rcases hb : runBody env inp fs with ⟨a, b, c⟩
  rcases hc : cleanupPhase cok iok inp.homeDir inp.appName a with ⟨d, e⟩
  dsimp only
  rw [hc]

/-- The staged filesystem only changes paths inside the staging tree or on
its creation segments: for the Scenario-A home and app name, every path
outside `~/.foo_installer_temp_extract` deeper than the home prefix is
untouched. -/
theorem staged_preserve (env : Env) (inp : RunInput) (fs : FS) (p : Path)
    (hhome : inp.homeDir = "/home/u") (happ : inp.appName = "Foo")
    (hnt : inTree (["home", "u", ".foo_installer_temp_extract"] : Path) p = false)
    (hlen : 3 < p.length)
    (hseg : ∀ r ∈ initSegs (["home", "u", ".foo_installer_temp_extract"] : Path), r ≠ p) :
    lookupFS (stagedFS env inp fs) p = lookupFS fs p := by
  have htempP : parsePath (joinPath inp.homeDir (tempDirName inp.appName)) =
      (["home", "u", ".foo_installer_temp_extract"] : Path) := by
    rw [hhome, happ]
    rfl
  unfold stagedFS
  rw [htempP]
  rw [extract_preserve env _ inp.archive.length p hnt (by simpa using hlen) 0 inp.archive _]
  rw [lookup_makedirsAll_not_seg _ _ p hseg]
  by_cases hex0 : existsFS fs (["home", "u", ".foo_installer_temp_extract"] : Path) = true
  · rw [if_pos hex0, lookup_rmtree_not_inTree fs _ p hnt]
  · rw [if_neg hex0]

theorem seg_ne_app (q : Path) (hq : q ≠ []) :
    ∀ r ∈ initSegs (["home", "u", ".app", "Foo"] : Path),
      r ≠ (["home", "u", ".app", "Foo"] : Path) ++ q := by
  intro r hr
  simp only [show initSegs (["home", "u", ".app", "Foo"] : Path) =
      [(["home"] : Path), ["home", "u"], ["home", "u", ".app"],
       ["home", "u", ".app", "Foo"]] from rfl,
    List.mem_cons, List.not_mem_nil, or_false] at hr
  rcases hr with h | h | h | h <;> subst h <;> intro heq
  · simp at heq
  · simp at heq
  · simp at heq
  · apply hq
    have h2 : (["home", "u", ".app", "Foo"] : Path) ++ ([] : Path) =
        (["home", "u", ".app", "Foo"] : Path) ++ q := by
      rw [List.append_nil]
      exact heq
    exact (List.append_cancel_left h2).symm

theorem seg_ne_temp_q (q : Path) :
    ∀ r ∈ initSegs (["home", "u", ".foo_installer_temp_extract"] : Path),
      r ≠ (["home", "u", ".app", "Foo"] : Path) ++ q := by
  intro r hr
  simp only [show initSegs (["home", "u", ".foo_installer_temp_extract"] : Path) =
      [(["home"] : Path), ["home", "u"],
       ["home", "u", ".foo_installer_temp_extract"]] from rfl,
    List.mem_cons, List.not_mem_nil, or_false] at hr
  rcases hr with h | h | h <;> subst h <;> intro heq <;> simp at heq

theorem seg_ne_apps (q : Path) :
    ∀ r ∈ initSegs (parsePath (appsDirStr "/home/u")),
      r ≠ (["home", "u", ".app", "Foo"] : Path) ++ q := by
  intro r hr
  simp only [show initSegs (parsePath (appsDirStr "/home/u")) =
      [(["home"] : Path), ["home", "u"], ["home", "u", ".local"],
       ["home", "u", ".local", "share"],
       ["home", "u", ".local", "share", "applications"]] from rfl,
    List.mem_cons, List.not_mem_nil, or_false] at hr
  rcases hr with h | h | h | h | h <;> subst h <;> intro heq <;> simp at heq

theorem desk_ne (q : Path) :
    parsePath (joinPath (appsDirStr "/home/u") (normName "Foo" ++ ".desktop")) ≠
      (["home", "u", ".app", "Foo"] : Path) ++ q := by
  intro heq
  rw [show parsePath (joinPath (appsDirStr "/home/u") (normName "Foo" ++ ".desktop")) =
      (["home", "u", ".local", "share", "applications", "foo.desktop"] : Path) from rfl] at heq
  simp at heq

/-- The Scenario-A filesystem: a home directory whose default destination
`~/.app/Foo` pre-exists with stale content. -/
def c2FS : FS :=
  [(["h"], Node.dir), (["h", ".app"], Node.dir), (["h", ".app", "Foo"], Node.dir),
   (["h", ".app", "Foo", "stale"], Node.file 420 false "s")]

/-- The Scenario-A input: manifest with empty `install_map` and an archive
holding `bin/` and the mode-`0o644` file `bin/foo`. -/
def c2Inp : RunInput :=
  { zipValid := true,
    archive := [(["bin"], Node.dir), (["bin", "foo"], Node.file 420 false "x")],
    appName := "Foo", executableName := "foo", iconPath := "",
    metaTerminal := none, metaType := none, metaCategories := none,
    installMap := [], homeDir := "/h" }

/-- C2 counterexample: on the Scenario-A run the fallback path does copy
the staged tree to `~/.app/Foo` and removes the stale content, but
`bin/foo` keeps its archive mode `0o644`: its user-execute bit (bit 6) is
still clear even though the name matches the executable heuristic, because
`_set_executable_permissions` (lines 229-252) is only called from the
mapping loop, never from the fallback branch (lines 174-187). -/
theorem c2_fallback_no_exec_counterexample :
    lookupFS (installerRun allOkEnv (fun _ => true) true c2Inp c2FS).1
      ["h", ".app", "Foo", "bin", "foo"] = some (Node.file 420 false "x") ∧
    getFileMode (installerRun allOkEnv (fun _ => true) true c2Inp c2FS).1
      ["h", ".app", "Foo", "bin", "foo"] = some 420 ∧
    Nat.testBit 420 6 = false ∧
    normCandidate "foo" (basenameStr "foo") = true ∧
    lookupFS (installerRun allOkEnv (fun _ => true) true c2Inp c2FS).1
      ["h", ".app", "Foo", "stale"] = none ∧
    Event.finished true ∈ (installerRun allOkEnv (fun _ => true) true c2Inp c2FS).2 := by
  decide

/-- C2 (amended): with an empty `install_map`, a valid archive and a
non-fatal run over the Scenario-A home `/home/u` and app name `Foo`
(hypothesis `hwf`: the starting filesystem is well-formed in that content
strictly under `~/.app/Foo` only exists if that directory itself does),
the fallback path installs the entire staged tree at `~/.app/Foo`,
removing any pre-existing destination first: after the run every strict
subpath of `~/.app/Foo` holds exactly what the staging directory held
under the same relative path, and every archive entry (under distinct
entry names) is installed with its node — mode included — unchanged, so
no execute permission is ever granted on this path. -/
theorem c2_fallback_copies_tree_without_exec (env : Env) (cok : Nat → Bool) (iok : Bool)
    (inp : RunInput) (fs : FS)
    (hmap : inp.installMap = []) (hzip : inp.zipValid = true)
    (hhome : inp.homeDir = "/home/u") (happ : inp.appName = "Foo")
    (hok : (runBody env inp fs).2.2 = true)
    (hwf : ∀ p, isUnder (["home", "u", ".app", "Foo"] : Path) p = true →
      existsFS fs p = true → existsFS fs (["home", "u", ".app", "Foo"] : Path) = true) :
    (∀ q : Path, q ≠ [] →
      lookupFS (installerRun env cok iok inp fs).1
          ((["home", "u", ".app", "Foo"] : Path) ++ q) =
        lookupFS (stagedFS env inp fs)
          ((["home", "u", ".foo_installer_temp_extract"] : Path) ++ q)) ∧
    (∀ rel n, (rel, n) ∈ inp.archive → rel ≠ [] → (inp.archive.map Prod.fst).Nodup →
      lookupFS (installerRun env cok iok inp fs).1
          ((["home", "u", ".app", "Foo"] : Path) ++ rel) = some n) := by
  obtain ⟨hokE, fsr, fs3, ex2, ic2, hfsr, hcopy, hbody1⟩ :=
    runBody_fallback_spec env inp fs hmap hzip hok
  have htempP : parsePath (joinPath inp.homeDir (tempDirName inp.appName)) =
      (["home", "u", ".foo_installer_temp_extract"] : Path) := by
    rw [hhome, happ]
    rfl
  have hdefP : parsePath (joinPath (joinPath inp.homeDir ".app") inp.appName) =
      (["home", "u", ".app", "Foo"] : Path) := by
    rw [hhome, happ]
    rfl
  rw [htempP, hdefP] at hcopy
  rw [hdefP] at hfsr
  have hmain : ∀ q : Path, q ≠ [] →
      lookupFS (installerRun env cok iok inp fs).1
          ((["home", "u", ".app", "Foo"] : Path) ++ q) =
        lookupFS (stagedFS env inp fs)
          ((["home", "u", ".foo_installer_temp_extract"] : Path) ++ q) := by
    intro q hq
    have hc1 : inTree (parsePath (joinPath inp.homeDir (tempDirName inp.appName)))
        ((["home", "u", ".app", "Foo"] : Path) ++ q) = false := by
      rw [htempP]
      rfl
    have hc2 : inTree (parsePath (joinPath inp.homeDir (iconDirName inp.appName)))
        ((["home", "u", ".app", "Foo"] : Path) ++ q) = false := by
      rw [hhome, happ]
      rfl
    rw [installerRun_fst]
    rw [cleanup_preserve cok iok inp.homeDir inp.appName ((runBody env inp fs).1)
      ((["home", "u", ".app", "Foo"] : Path) ++ q) hc1 hc2]
    rw [hbody1]
    have hd1 : ∀ r ∈ initSegs (parsePath (appsDirStr inp.homeDir)),
        r ≠ (["home", "u", ".app", "Foo"] : Path) ++ q := by
      rw [hhome]
      exact seg_ne_apps q
    have hd2 : parsePath (joinPath (appsDirStr inp.homeDir)
        (normName inp.appName ++ ".desktop")) ≠
        (["home", "u", ".app", "Foo"] : Path) ++ q := by
      rw [hhome, happ]
      exact desk_ne q
    rw [desktop_preserve env inp.homeDir inp.appName ex2 ic2 inp.metaTerminal inp.metaType
      inp.metaCategories fs3 ((["home", "u", ".app", "Foo"] : Path) ++ q) hd1 hd2]
    rw [lookup_copytree_ok fsr (["home", "u", ".foo_installer_temp_extract"] : Path)
      (["home", "u", ".app", "Foo"] : Path) fs3 hcopy q hq (seg_ne_app q hq)]
    rcases hfsr with ⟨hfe, hnex⟩ | hfe
    · subst hfe
      have hnoneQ : lookupFS (stagedFS env inp fs)
          ((["home", "u", ".app", "Foo"] : Path) ++ q) = none := by
        have hlenq : 3 < ((["home", "u", ".app", "Foo"] : Path) ++ q).length := by
          simp only [List.length_append, List.length_cons, List.length_nil]
          omega
        rw [staged_preserve env inp fs ((["home", "u", ".app", "Foo"] : Path) ++ q)
          hhome happ rfl hlenq (seg_ne_temp_q q)]
        cases hl : lookupFS fs ((["home", "u", ".app", "Foo"] : Path) ++ q) with
        | none => rfl
        | some n =>
            exfalso
            have hexq : existsFS fs ((["home", "u", ".app", "Foo"] : Path) ++ q) = true := by
              rw [existsFS, hl]
              rfl
            have hexD := hwf _ (isUnder_append _ q hq) hexq
            have hpresD : lookupFS (stagedFS env inp fs)
                (["home", "u", ".app", "Foo"] : Path) =
                lookupFS fs (["home", "u", ".app", "Foo"] : Path) :=
              staged_preserve env inp fs _ hhome happ (by decide) (by decide) (by decide)
            have hexS : existsFS fs (["home", "u", ".app", "Foo"] : Path) = false := by
              unfold existsFS at hnex ⊢
              rw [← hpresD]
              exact hnex
            rw [hexD] at hexS
            cases hexS
      rw [hnoneQ]
      cases hls : lookupFS (stagedFS env inp fs)
          ((["home", "u", ".foo_installer_temp_extract"] : Path) ++ q) with
      | some n => rfl
      | none => rfl
    · subst hfe
      rw [lookup_rmtree_not_inTree (stagedFS env inp fs)
          (["home", "u", ".app", "Foo"] : Path)
          ((["home", "u", ".foo_installer_temp_extract"] : Path) ++ q) rfl,
        lookup_rmtree_inTree (stagedFS env inp fs) (["home", "u", ".app", "Foo"] : Path)
          ((["home", "u", ".app", "Foo"] : Path) ++ q)
          (inTree_append (["home", "u", ".app", "Foo"] : Path) q)]
      cases hls : lookupFS (stagedFS env inp fs)
          ((["home", "u", ".foo_installer_temp_extract"] : Path) ++ q) with
      | some n => rfl
      | none => rfl
  refine ⟨hmain, ?_⟩
  intro rel n hmem hrel hnod
  rw [hmain rel hrel]
  unfold stagedFS
  rw [htempP]
  rw [htempP] at hokE
  exact extract_lookup_mem env _ inp.archive.length 0 inp.archive _ rel n hokE hmem hnod

/-- The witness input for C2: Scenario A verbatim — home `/home/u`, app
name `Foo`, empty install map, archive `bin/` plus `bin/foo`. -/
def c2WInp : RunInput :=
  { zipValid := true,
    archive := [(["bin"], Node.dir), (["bin", "foo"], Node.file 420 false "x")],
    appName := "Foo", executableName := "foo", iconPath := "",
    metaTerminal := none, metaType := none, metaCategories := none,
    installMap := [], homeDir := "/home/u" }

theorem c2_fallback_copies_tree_without_exec_witness :
    (runBody allOkEnv c2WInp ([] : FS)).2.2 = true ∧
    lookupFS (installerRun allOkEnv (fun _ => true) true c2WInp ([] : FS)).1
      ((["home", "u", ".app", "Foo"] : Path) ++ ["bin", "foo"]) =
      some (Node.file 420 false "x") :=
  ⟨by decide,
   (c2_fallback_copies_tree_without_exec allOkEnv (fun _ => true) true c2WInp []
      rfl rfl rfl rfl (by decide)
      (fun p _ hex => absurd hex (by simp [existsFS, lookupFS]))).2
     ["bin", "foo"] (Node.file 420 false "x") (by decide) (by decide) (by decide)⟩

end Setup

